import Mathlib

/-!
Verification development for the `cash_flow` personal cash-flow engine.

The Python sources (`transactions.py`, `repository.py`, `main.py`) are shallowly
embedded below.  Modelling conventions:

* Monetary amounts (Python floats) are modelled as exact integers (`Int`,
  think of them as cents); the engine's arithmetic on amounts is `+`, `-`,
  `min` and `abs`, which are exact.
* Python `datetime.date` values are modelled by `CalDate` (year/month/day as
  naturals).  `dateutil.relativedelta(months=k)` is `CalDate.addMonths`
  (month arithmetic with day clamped to the end of the target month), and
  `date.replace(day=k)`, which raises `ValueError` for a day that does not
  exist in the month, is `CalDate.replaceDay : ... → Option CalDate`.
  Comparison of valid dates is chronological (`CalDate.le`).
* The SQLite store is a `State` record holding the table contents as lists in
  rowid (insertion) order; `INTEGER PRIMARY KEY AUTOINCREMENT` is modelled by
  the `nextId` counter.  A `SELECT` without `ORDER BY` scans in rowid order
  (`List.find?` / `List.filter` on the list); `ORDER BY date_payed` is a
  stable sort by `date_payed` (`sortByPayed`).
* Fallible Python code (a raised exception) is modelled with `Option`:
  `none` means the call raised.
* `uuid`-based fresh origin ids (`_generate_origin_id`) are modelled by the
  `nextOrigin` counter of the state, threaded to the factory functions.
-/

/-- Calendar date: models Python `datetime.date`. -/
structure CalDate where
  year : Nat
  month : Nat
  day : Nat
deriving DecidableEq, Repr

/-- Gregorian leap-year rule (as used by Python `datetime`). -/
def isLeapYear (y : Nat) : Bool :=
  y % 4 == 0 && (y % 100 != 0 || y % 400 == 0)

/-- Number of days of month `m` of year `y` (Python `calendar.monthrange`). -/
def daysInMonth (y m : Nat) : Nat :=
  if m == 2 then (if isLeapYear y then 29 else 28)
  else if m == 4 || m == 6 || m == 9 || m == 11 then 30
  else 31

/-- Linear month index; on valid dates (month between 1 and 12) two dates are
in the same calendar month iff their `monthIdx` agree. -/
def CalDate.monthIdx (d : CalDate) : Nat := d.year * 12 + (d.month - 1)

/-- Chronological `≤` on dates (agrees with Python date comparison on valid
dates). -/
def CalDate.le (a b : CalDate) : Bool :=
  a.monthIdx < b.monthIdx || (a.monthIdx == b.monthIdx && a.day ≤ b.day)

/-- Chronological `<` on dates. -/
def CalDate.lt (a b : CalDate) : Bool :=
  a.monthIdx < b.monthIdx || (a.monthIdx == b.monthIdx && a.day < b.day)

/-- Python `d + relativedelta(months=k)`: add `k` months, clamping the day to
the last day of the target month. -/
def CalDate.addMonths (d : CalDate) (k : Nat) : CalDate :=
  let total := d.year * 12 + (d.month - 1) + k
  let y := total / 12
  let m := total % 12 + 1
  { year := y, month := m, day := min d.day (daysInMonth y m) }

/-- Python `d.replace(day=k)`; raises (`none`) when day `k` does not exist in
`d`'s month. -/
def CalDate.replaceDay (d : CalDate) (k : Nat) : Option CalDate :=
  if 1 ≤ k ∧ k ≤ daysInMonth d.year d.month then some { d with day := k } else none

/-- `d.replace(day=1)`. -/
def monthStart (d : CalDate) : CalDate := { d with day := 1 }

/-- `d.replace(day=1) + relativedelta(months=1) - relativedelta(days=1)`:
the last day of `d`'s month. -/
def monthEnd (d : CalDate) : CalDate := { d with day := daysInMonth d.year d.month }

/-- SQL `date(x) BETWEEN start_of_month(ref) AND end_of_month(ref)`. -/
def inMonth (x ref : CalDate) : Bool :=
  CalDate.le (monthStart ref) x && CalDate.le x (monthEnd ref)

/-- A structurally valid calendar date (what Python `datetime.date` enforces). -/
def ValidDate (d : CalDate) : Prop :=
  1 ≤ d.month ∧ d.month ≤ 12 ∧ 1 ≤ d.day ∧ d.day ≤ daysInMonth d.year d.month

instance (d : CalDate) : Decidable (ValidDate d) := by
  unfold ValidDate; infer_instance

/-- Transaction status; the Python code stores the lowercase strings
`"committed" | "pending" | "forecast" | "planning"`. -/
inductive Status where
  | committed
  | pending
  | forecast
  | planning
deriving DecidableEq, Repr

/-- Row of the `accounts` table. -/
structure Account where
  account_id : String
  account_type : String
  cut_off_day : Option Nat
  payment_day : Option Nat
deriving DecidableEq, Repr

/-- Row of the `subscriptions` table. -/
structure Subscription where
  id : String
  name : String
  category : String
  monthly_amount : Int
  payment_account_id : String
  start_date : CalDate
  end_date : Option CalDate
  is_budget : Bool
  underspend_behavior : String
  is_income : Bool
deriving DecidableEq, Repr

/-- Row of the `transactions` table. -/
structure Txn where
  id : Nat
  date_created : CalDate
  date_payed : CalDate
  description : String
  account : Option String
  amount : Int
  category : Option String
  budget : Option String
  status : Status
  origin_id : Option String
deriving DecidableEq, Repr

/-- One element of a split request. -/
structure SplitItem where
  amount : Int
  category : Option String
  budget : Option String
deriving DecidableEq, Repr

/-! ## transactions.py -/

/-- `transactions._calculate_credit_card_payment_date`.  Returns `none` when
the final `payment_date.replace(day=payment_day)` raises `ValueError`
(payment day absent from the target month). -/
def calculateCreditCardPaymentDate (transaction_date : CalDate)
    (cut_off_day payment_day : Nat) : Option CalDate :=
  if cut_off_day < payment_day then
    -- Case 1: same-month payment cycle
    if cut_off_day ≤ transaction_date.day then
      (transaction_date.addMonths 1).replaceDay payment_day
    else
      transaction_date.replaceDay payment_day
  else
    -- Case 2: next-month payment cycle (payment_day <= cut_off_day)
    if cut_off_day < transaction_date.day then
      (transaction_date.addMonths 2).replaceDay payment_day
    else
      (transaction_date.addMonths 1).replaceDay payment_day

/-- `transactions.create_single_transaction`.  `none` models the raise that
happens for a credit-card account whose payment day is invalid in the target
month (or whose cycle days are missing).  The stored `id` is a placeholder 0;
the store assigns real ids on insert. -/
def createSingleTransaction (description : String) (amount : Int)
    (category budget : Option String) (account : Account)
    (transaction_date : CalDate) (grace_period_months : Nat)
    (is_income is_pending is_planning : Bool) : Option Txn :=
  let final_amount : Int := if is_income then |amount| else -|amount|
  let status : Status :=
    if is_pending then Status.pending
    else if is_planning then Status.planning
    else Status.committed
  let effective_date := transaction_date.addMonths grace_period_months
  let payed? : Option CalDate :=
    if account.account_type == "credit_card" then
      match account.cut_off_day, account.payment_day with
      | some c, some p => calculateCreditCardPaymentDate effective_date c p
      | _, _ => none
    else some effective_date
  payed?.map fun payed =>
    { id := 0
      date_created := transaction_date
      date_payed := payed
      description := description
      account := some account.account_id
      amount := final_amount
      category := category
      budget := budget
      status := status
      origin_id := none }

/-- `transactions.create_split_transactions`; `originId` models the freshly
minted `_generate_origin_id()` value. -/
def createSplitTransactions (originId : String) (description : String)
    (splits : List SplitItem) (account : Account) (transaction_date : CalDate)
    (is_income is_pending is_planning : Bool) : Option (List Txn) :=
  splits.mapM fun sp =>
    (createSingleTransaction description sp.amount sp.category sp.budget account
        transaction_date 0 is_income is_pending is_planning).map
      fun t => { t with origin_id := some originId }

/-- Rounding of `total_amount / K` to two decimals: with amounts in exact
cents this is nearest-integer division with ties to even (Python banker's
rounding of the float quotient). -/
def roundDivNearestEven (a : Int) (b : Nat) : Int :=
  let q := a / (b : Int)
  let r := a % (b : Int)
  if 2 * r < (b : Int) then q
  else if 2 * r > (b : Int) then q + 1
  else if q % 2 == 0 then q else q + 1

/-- The `for i in range(installments)` loop of
`transactions.create_installment_transactions`, including its safety break.
Processes installment indices `i`, `i+1`, … while `i < installments`. -/
def installmentLoop (originId description : String) (final_amount : Int)
    (final_total_installments : Nat) (category budget : Option String)
    (account : Account) (transaction_date : CalDate)
    (grace_period_months start_from_installment : Nat)
    (hasTotal is_pending is_planning : Bool)
    (installments i : Nat) : Option (List Txn) :=
  if i < installments then
    let current_installment_num := start_from_installment + i
    if hasTotal && final_total_installments < current_installment_num then
      some []  -- safety break
    else
      let future_billing_date := transaction_date.addMonths (i + grace_period_months)
      let payed? : Option CalDate :=
        if account.account_type == "credit_card" then
          match account.cut_off_day, account.payment_day with
          | some c, some p => calculateCreditCardPaymentDate future_billing_date c p
          | _, _ => none
        else some future_billing_date
      match payed? with
      | none => none
      | some payed =>
        (installmentLoop originId description final_amount final_total_installments
            category budget account transaction_date grace_period_months
            start_from_installment hasTotal is_pending is_planning
            installments (i + 1)).map fun rest =>
          { id := 0
            date_created := transaction_date
            date_payed := payed
            description := description ++ " (" ++ toString current_installment_num
              ++ "/" ++ toString final_total_installments ++ ")"
            account := some account.account_id
            amount := final_amount
            category := category
            budget := budget
            status := if is_pending then Status.pending
                      else if is_planning then Status.planning
                      else Status.committed
            origin_id := some originId } :: rest
  else some []
termination_by installments - i

/-- `transactions.create_installment_transactions`.  `none` models a raise
(`ZeroDivisionError` for a zero plan size, or a credit-card payment-date
`ValueError`). -/
def createInstallmentTransactions (originId : String) (description : String)
    (total_amount : Int) (installments : Nat) (category budget : Option String)
    (account : Account) (transaction_date : CalDate)
    (grace_period_months : Nat) (start_from_installment : Nat)
    (total_installments : Option Nat)
    (is_income is_pending is_planning : Bool) : Option (List Txn) :=
  let final_total_installments := total_installments.getD installments
  if final_total_installments == 0 then none else  -- ZeroDivisionError
  let installment_amount := roundDivNearestEven total_amount final_total_installments
  let final_amount : Int :=
    if is_income then |installment_amount| else -|installment_amount|
  installmentLoop originId description final_amount final_total_installments
    category budget account transaction_date grace_period_months
    start_from_installment total_installments.isSome is_pending is_planning
    installments 0

/-- `transactions.create_budget_release_transaction`. -/
def createBudgetReleaseTransaction (budget_id budget_name : String)
    (release_amount : Int) (account : Account) (month_date : CalDate) : Txn :=
  { id := 0
    date_created := month_date
    date_payed := month_date
    description := budget_name ++ " Budget Release " ++ toString month_date.year
      ++ "-" ++ toString month_date.month
    account := some account.account_id
    amount := |release_amount|
    category := some "Budget Release"
    budget := some budget_id
    status := Status.committed
    origin_id := some budget_id }

/-- Month index advances by exactly `k` under `addMonths`. -/
theorem CalDate.monthIdx_addMonths (d : CalDate) (k : Nat) :
    (d.addMonths k).monthIdx = d.year * 12 + (d.month - 1) + k := by
  unfold CalDate.addMonths CalDate.monthIdx
  simp only
  omega

/-- `CalDate.le` implies `≤` on month indices. -/
theorem CalDate.monthIdx_le_of_le {a b : CalDate} (h : CalDate.le a b = true) :
    a.monthIdx ≤ b.monthIdx := by
  unfold CalDate.le at h
  simp only [Bool.or_eq_true, decide_eq_true_eq, Bool.and_eq_true, beq_iff_eq] at h
  omega

/-- The `while current_date <= end_period` loop of
`transactions.create_recurrent_transactions`.  `sub.start_date.day` is the
recurrence day; a day invalid for the month is clamped to the month end (the
`except ValueError` branch).  `ia` is the `initial_amounts` dict as an
association list keyed by (year, month). -/
def createRecurrentLoop (sub : Subscription) (account : Account)
    (startP endP : CalDate) (ia : List ((Nat × Nat) × Int))
    (cur : CalDate) : Option (List Txn) :=
  if h : CalDate.le cur endP then
    let tday := sub.start_date.day
    let tdate : CalDate :=
      if tday ≤ daysInMonth cur.year cur.month then ⟨cur.year, cur.month, tday⟩
      else ⟨cur.year, cur.month, daysInMonth cur.year cur.month⟩
    let rest? := createRecurrentLoop sub account startP endP ia (cur.addMonths 1)
    if CalDate.le startP tdate && CalDate.le tdate endP then
      let amount :=
        ((ia.find? (fun e => e.1 == (tdate.year, tdate.month))).map (·.2)).getD
          sub.monthly_amount
      match createSingleTransaction sub.name amount (some sub.category) none account
          tdate 0 sub.is_income false false with
      | none => none
      | some tr =>
        rest?.map fun rest =>
          { tr with
            status := Status.forecast
            origin_id := some sub.id
            budget := if sub.is_budget then some sub.id else none } :: rest
    else rest?
  else some []
termination_by endP.monthIdx + 1 - cur.monthIdx
decreasing_by
  have h1 := CalDate.monthIdx_le_of_le h
  have h2 := CalDate.monthIdx_addMonths cur 1
  unfold CalDate.monthIdx at h1 h2 ⊢
  omega

/-- `transactions.create_recurrent_transactions`. -/
def createRecurrentTransactions (sub : Subscription) (account : Account)
    (start_period end_period : CalDate)
    (ia : List ((Nat × Nat) × Int)) : Option (List Txn) :=
  createRecurrentLoop sub account start_period end_period ia start_period

/-! ## The store (`database.py` tables + sqlite semantics) -/

/-- The persistent store: table contents in rowid (insertion) order.
`nextId` models `INTEGER PRIMARY KEY AUTOINCREMENT` of `transactions`;
`nextOrigin` models the stream of fresh `_generate_origin_id()` values. -/
structure State where
  transactions : List Txn
  subscriptions : List Subscription
  accounts : List Account
  settings : List (String × String)
  nextId : Nat
  nextOrigin : Nat
deriving DecidableEq, Repr

/-- Assign consecutive store ids starting at `n` (AUTOINCREMENT). -/
def assignIds (n : Nat) : List Txn → List Txn
  | [] => []
  | t :: ts => { t with id := n } :: assignIds (n + 1) ts

/-- `repository.add_transactions`: insert the rows at the end of the table. -/
def addTransactions (s : State) (ts : List Txn) : State :=
  { s with
    transactions := s.transactions ++ assignIds s.nextId ts
    nextId := s.nextId + ts.length }

/-- `repository.get_account_by_name`. -/
def getAccountByName (s : State) (name : String) : Option Account :=
  s.accounts.find? (·.account_id == name)

/-- `repository.get_subscription_by_id`. -/
def getSubscriptionById (s : State) (sub_id : String) : Option Subscription :=
  s.subscriptions.find? (·.id == sub_id)

/-- `repository.get_transaction_by_id`. -/
def getTransactionById (s : State) (transaction_id : Nat) : Option Txn :=
  s.transactions.find? (·.id == transaction_id)

/-- The WHERE clause of `repository.get_budget_allocation_for_month`:
`origin_id = budget_id AND date(date_created) BETWEEN start AND end of month`. -/
def allocPred (budget_id : String) (month_date : CalDate) (t : Txn) : Bool :=
  t.origin_id == some budget_id && inMonth t.date_created month_date

/-- `repository.get_budget_allocation_for_month` (`fetchone` on a `SELECT`
without `ORDER BY`: first matching row in rowid order). -/
def getBudgetAllocationForMonth (s : State) (budget_id : String)
    (month_date : CalDate) : Option Txn :=
  s.transactions.find? (allocPred budget_id month_date)

/-- The WHERE clause of `repository.get_total_spent_for_budget_in_month`. -/
def spentPred (budget_id : String) (month_date : CalDate) (t : Txn) : Bool :=
  t.budget == some budget_id && inMonth t.date_created month_date &&
    !(t.origin_id == some budget_id) && !(t.status == Status.pending)

/-- `repository.get_total_spent_for_budget_in_month`:
`abs(SUM(amount))` over the matching rows (0 when there are none). -/
def getTotalSpentForBudgetInMonth (s : State) (budget_id : String)
    (month_date : CalDate) : Int :=
  |((s.transactions.filter (spentPred budget_id month_date)).map (·.amount)).sum|

/-- The WHERE clause of `repository.get_total_committed_for_budget_in_month`. -/
def committedPred (budget_id : String) (month_date : CalDate) (t : Txn) : Bool :=
  t.budget == some budget_id && t.status == Status.committed &&
    inMonth t.date_payed month_date && !(t.origin_id == some budget_id)

/-- `repository.get_total_committed_for_budget_in_month`. -/
def getTotalCommittedForBudgetInMonth (s : State) (budget_id : String)
    (month_date : CalDate) : Int :=
  |((s.transactions.filter (committedPred budget_id month_date)).map (·.amount)).sum|

/-- `repository.update_transaction_amount`. -/
def updateTransactionAmount (s : State) (transaction_id : Nat)
    (new_amount : Int) : State :=
  { s with transactions := s.transactions.map fun t =>
      if t.id == transaction_id then { t with amount := new_amount } else t }

/-- `repository.update_subscription` specialised to the single use in
`main.py`: `{"monthly_amount": new_amount}`. -/
def updateSubscriptionMonthlyAmount (s : State) (subscription_id : String)
    (new_amount : Int) : State :=
  { s with subscriptions := s.subscriptions.map fun σ =>
      if σ.id == subscription_id then { σ with monthly_amount := new_amount } else σ }

/-- `repository.get_all_active_subscriptions`:
`start_date <= end_range AND (end_date IS NULL OR end_date >= start_range)`. -/
def getAllActiveSubscriptions (s : State) (start_range end_range : CalDate) :
    List Subscription :=
  s.subscriptions.filter fun σ =>
    CalDate.le σ.start_date end_range &&
      (match σ.end_date with
       | none => true
       | some e => CalDate.le start_range e)

/-- `repository.get_setting`. -/
def getSetting (s : State) (key : String) : Option String :=
  (s.settings.find? (·.1 == key)).map (·.2)

/-- `repository.delete_transaction`. -/
def deleteTransaction (s : State) (transaction_id : Nat) : State :=
  { s with transactions := s.transactions.filter fun t => !(t.id == transaction_id) }

/-- `repository.commit_past_and_current_forecasts`: every `forecast` row with
`date_payed <= end_of_month(month_date)` becomes `committed`. -/
def commitPastAndCurrentForecasts (s : State) (month_date : CalDate) : State :=
  let end_of_month := monthEnd (monthStart month_date)
  { s with transactions := s.transactions.map fun t =>
      if t.status == Status.forecast && CalDate.le t.date_payed end_of_month then
        { t with status := Status.committed }
      else t }

/-- Stable insertion step of `ORDER BY date_payed` (ascending). -/
def insertByPayed (t : Txn) : List Txn → List Txn
  | [] => [t]
  | u :: us =>
    if CalDate.le t.date_payed u.date_payed then t :: u :: us
    else u :: insertByPayed t us

/-- `ORDER BY date_payed` over the rowid-ordered table: a stable sort. -/
def sortByPayed : List Txn → List Txn
  | [] => []
  | t :: ts => insertByPayed t (sortByPayed ts)

/-- `repository.get_all_transactions` (`SELECT * ... ORDER BY date_payed`). -/
def getAllTransactions (s : State) : List Txn :=
  sortByPayed s.transactions

/-- The running-balance fold of
`repository.get_transactions_with_running_balance`: rows whose status is not
`pending` add their amount; every row is annotated with the balance after
itself. -/
def annotateBalance (balance : Int) : List Txn → List (Txn × Int)
  | [] => []
  | t :: ts =>
    let balance' := if t.status == Status.pending then balance else balance + t.amount
    (t, balance') :: annotateBalance balance' ts

/-- `repository.get_transactions_with_running_balance`. -/
def getTransactionsWithRunningBalance (s : State) : List (Txn × Int) :=
  annotateBalance 0 (getAllTransactions s)

/-! ## main.py -/

/-- `main._recalculate_and_update_budget`. -/
def recalcAndUpdateBudget (s : State) (budget_id : String)
    (month_date : CalDate) : State :=
  match getSubscriptionById s budget_id with
  | none => s
  | some budget_subscription =>
    let total_budget_amount := budget_subscription.monthly_amount
    let total_spent := getTotalSpentForBudgetInMonth s budget_id month_date
    let amount_to_apply := min total_spent total_budget_amount
    let new_allocation_amount := -total_budget_amount + amount_to_apply
    match getBudgetAllocationForMonth s budget_id month_date with
    | none => s
    | some allocation => updateTransactionAmount s allocation.id new_allocation_amount

/-- The `if allocation:` tail of `main._apply_expense_to_budget`. -/
def applyAllocStep (s : State) (transaction allocation : Txn) : State :=
  let amount_to_apply := min |transaction.amount| |allocation.amount|
  updateTransactionAmount s allocation.id (allocation.amount + amount_to_apply)

/-- `main._apply_expense_to_budget`.  `none` models the raise that happens
when the on-the-fly allocation has to be created but the budget's payment
account does not resolve or is a credit card whose payment day is invalid. -/
def applyExpenseToBudget (s : State) (transaction : Txn) : Option State :=
  match transaction.budget with
  | none => some s
  | some budget_id =>
    let target_month := transaction.date_payed
    match getBudgetAllocationForMonth s budget_id target_month with
    | some allocation => some (applyAllocStep s transaction allocation)
    | none =>
      match getSubscriptionById s budget_id with
      | none => some s  -- "Should not happen if data is consistent"
      | some budget_sub =>
        match getAccountByName s budget_sub.payment_account_id with
        | none => none  -- account is None; create_single_transaction raises
        | some account =>
          match createSingleTransaction budget_sub.name budget_sub.monthly_amount
              (some budget_sub.category) (some budget_id) account
              (monthStart target_month) 0 false false false with
          | none => none
          | some tr =>
            let s2 := addTransactions s
              [{ tr with status := Status.forecast, origin_id := some budget_id }]
            match getBudgetAllocationForMonth s2 budget_id target_month with
            | none => some s2
            | some allocation => some (applyAllocStep s2 transaction allocation)

/-- The typed transaction-request surface consumed by
`main.process_transaction_request`.  The `simple` request carries the
`is_income` / `is_pending` / `is_planning` flags the external surface may
supply; whether the controller forwards them is a property of the code. -/
inductive Request where
  | simple (description : String) (amount : Int) (account : String)
      (category budget : Option String) (grace_period_months : Nat)
      (is_income is_pending is_planning : Bool)
  | installment (description : String) (total_amount : Int) (installments : Nat)
      (account : String) (category budget : Option String)
      (grace_period_months : Nat)
  | split (description : String) (account : String) (splits : List SplitItem)
deriving DecidableEq, Repr

/-- The `for t in new_transactions: _apply_expense_to_budget(conn, t)` loop. -/
def applyAllExpenses : State → List Txn → Option State
  | s, [] => some s
  | s, t :: ts =>
    match applyExpenseToBudget s t with
    | none => none
    | some s' => applyAllExpenses s' ts

/-- `main.process_transaction_request`.  `none` models a raise (unknown
account, or a factory failure).  Note that the `simple` branch forwards only
`description, amount, category, budget, account, transaction_date,
grace_period_months` to `create_single_transaction` — exactly as the source
does; the request's `is_income` / `is_pending` / `is_planning` flags are not
passed on. -/
def processTransactionRequest (s : State) (request : Request)
    (transaction_date : CalDate) : Option State :=
  let account_name := match request with
    | .simple _ _ a _ _ _ _ _ _ => a
    | .installment _ _ _ a _ _ _ => a
    | .split _ a _ => a
  match getAccountByName s account_name with
  | none => none  -- raise ValueError: account not found
  | some account =>
    let originId := "g" ++ toString s.nextOrigin
    let new? : Option (List Txn) :=
      match request with
      | .simple description amount _ category budget grace_period_months _ _ _ =>
        (createSingleTransaction description amount category budget account
            transaction_date grace_period_months false false false).map ([·])
      | .installment description total_amount installments _ category budget
          grace_period_months =>
        createInstallmentTransactions originId description total_amount installments
          category budget account transaction_date grace_period_months 1 none
          false false false
      | .split description _ splits =>
        createSplitTransactions originId description splits account
          transaction_date false false false
    match new? with
    | none => none
    | some new_transactions =>
      if new_transactions.isEmpty then some { s with nextOrigin := s.nextOrigin + 1 }
      else
        let s1 := addTransactions { s with nextOrigin := s.nextOrigin + 1 }
          new_transactions
        applyAllExpenses s1 new_transactions

/-- A partial-update dict for `repository.update_transaction`, restricted to
the fields this development reasons about (`none` = key absent). -/
structure TxnUpdates where
  description : Option String
  amount : Option Int
  category : Option (Option String)
  budget : Option (Option String)
  status : Option Status
  date_payed : Option CalDate
deriving DecidableEq, Repr

/-- Apply an update dict to a row. -/
def applyTxnUpdates (t : Txn) (u : TxnUpdates) : Txn :=
  { t with
    description := u.description.getD t.description
    amount := u.amount.getD t.amount
    category := u.category.getD t.category
    budget := u.budget.getD t.budget
    status := u.status.getD t.status
    date_payed := u.date_payed.getD t.date_payed }

/-- `repository.update_transaction`. -/
def updateTransaction (s : State) (transaction_id : Nat) (u : TxnUpdates) : State :=
  { s with transactions := s.transactions.map fun t =>
      if t.id == transaction_id then applyTxnUpdates t u else t }

/-- `main.process_transaction_update`.  The `budgets_to_recalculate` set holds
the `(budget, date_payed)` pairs of the pre- and post-update row; when they
coincide only one recalculation runs. -/
def processTransactionUpdate (s : State) (transaction_id : Nat)
    (updates : TxnUpdates) : Option State :=
  match getTransactionById s transaction_id with
  | none => none  -- raise ValueError
  | some original =>
    let s1 := updateTransaction s transaction_id updates
    match getTransactionById s1 transaction_id with
    | none => some s1  -- unreachable: the row still exists
    | some updated =>
      let p1 : Option (String × CalDate) :=
        original.budget.map fun b => (b, original.date_payed)
      let p2 : Option (String × CalDate) :=
        updated.budget.map fun b => (b, updated.date_payed)
      let pairs := p1.toList ++ (if p2 == p1 then [] else p2.toList)
      some (pairs.foldl (fun st p => recalcAndUpdateBudget st p.1 p.2) s1)

/-- `main.process_transaction_deletion`. -/
def processTransactionDeletion (s : State) (transaction_id : Nat) : State :=
  match getTransactionById s transaction_id with
  | none => s
  | some t =>
    let s1 := deleteTransaction s transaction_id
    match t.budget with
    | some budget_id => recalcAndUpdateBudget s1 budget_id t.date_payed
    | none => s1

/-- The `for budget_sub in active_budgets` loop of
`main.run_monthly_budget_reconciliation`.  `none` models the raise when a
budget's payment account does not resolve while a release must be created. -/
def reconcileLoop (s : State) (month_date : CalDate) :
    List Subscription → Option State
  | [] => some s
  | budget_sub :: rest =>
    match getBudgetAllocationForMonth s budget_sub.id month_date with
    | some allocation =>
      if allocation.amount < 0 && budget_sub.underspend_behavior == "return" then
        match getAccountByName s budget_sub.payment_account_id with
        | none => none
        | some account =>
          let release := createBudgetReleaseTransaction budget_sub.id budget_sub.name
            |allocation.amount| account month_date
          let s1 := addTransactions s [release]
          let s2 := updateTransactionAmount s1 allocation.id 0
          reconcileLoop s2 month_date rest
      else reconcileLoop s month_date rest
    | none => reconcileLoop s month_date rest

/-- `main.run_monthly_budget_reconciliation`. -/
def runMonthlyBudgetReconciliation (s : State) (month_date : CalDate) :
    Option State :=
  let active_budgets :=
    (getAllActiveSubscriptions s month_date month_date).filter (·.is_budget)
  reconcileLoop s month_date active_budgets

/-- The `while current_month <= end_period` pre-calculation of
`main.generate_forecasts` building `initial_amounts` for a budget
subscription. -/
def initialAmountsLoop (s : State) (sub : Subscription) (endP : CalDate)
    (cur : CalDate) : List ((Nat × Nat) × Int) :=
  if h : CalDate.le cur endP then
    let total_committed := getTotalCommittedForBudgetInMonth s sub.id cur
    let rest := initialAmountsLoop s sub endP (cur.addMonths 1)
    if 0 < total_committed then
      ((cur.year, cur.month), min 0 (-sub.monthly_amount + total_committed)) :: rest
    else rest
  else []
termination_by endP.monthIdx + 1 - cur.monthIdx
decreasing_by
  have h1 := CalDate.monthIdx_le_of_le h
  have h2 := CalDate.monthIdx_addMonths cur 1
  unfold CalDate.monthIdx at h1 h2 ⊢
  omega

/-- The per-subscription body of `main.generate_forecasts`.  `allTx` is the
`all_transactions` snapshot fetched once before the loop. -/
def generateForecastsSub (allTx : List Txn) (today horizon_date : CalDate)
    (s : State) (sub : Subscription) : Option State :=
  let lastForecast? := allTx.reverse.find? fun t =>
    t.origin_id == some sub.id && t.status == Status.forecast
  let start_period := match lastForecast? with
    | some t => monthStart (t.date_created.addMonths 1)
    | none =>
      monthStart (if CalDate.le sub.start_date today then today else sub.start_date)
  let end_period := match sub.end_date with
    | some e => if CalDate.lt horizon_date e then horizon_date else e
    | none => horizon_date
  if CalDate.lt end_period start_period then some s  -- continue
  else
    match getAccountByName s sub.payment_account_id with
    | none => some s  -- warning printed; subscription skipped
    | some account =>
      let ia := if sub.is_budget then initialAmountsLoop s sub end_period start_period
                else []
      match createRecurrentTransactions sub account start_period end_period ia with
      | none => none
      | some [] => some s  -- `if new_forecasts:` is false
      | some new_forecasts => some (addTransactions s new_forecasts)

/-- The `for sub in active_subscriptions` loop of `main.generate_forecasts`. -/
def generateForecastsAux (allTx : List Txn) (today horizon_date : CalDate) :
    State → List Subscription → Option State
  | s, [] => some s
  | s, sub :: rest =>
    match generateForecastsSub allTx today horizon_date s sub with
    | none => none
    | some s' => generateForecastsAux allTx today horizon_date s' rest

/-- `main.generate_forecasts(conn, horizon_months, from_date)`. -/
def generateForecasts (s : State) (horizon_months : Nat)
    (from_date : CalDate) : Option State :=
  let today := from_date
  let horizon_date := today.addMonths horizon_months
  let active_subscriptions := getAllActiveSubscriptions s today horizon_date
  generateForecastsAux (getAllTransactions s) today horizon_date s
    active_subscriptions

/-- `main.run_monthly_rollover`.  Its first store access, line 404,
is `repository.commit_forecasts_for_month(conn, process_date)`; `repository.py`
defines no such attribute (its function is named
`commit_past_and_current_forecasts`), so the call raises `AttributeError`
before any store mutation. -/
def runMonthlyRollover (s : State) (process_date : CalDate) :
    Except String State :=
  Except.error
    "AttributeError: module repository has no attribute commit_forecasts_for_month"

/-- `main.process_budget_update`.  Part A (update the subscription record,
recompute a committed live-month allocation) executes and commits; the wipe
step, line 288, then calls `repository.delete_future_forecasts`, which does
not exist in `repository.py` (the function there is
`delete_future_budget_allocations`), so an `AttributeError` is raised.  The
returned flag records whether the raise happened; the returned state holds
the already-committed Part-A mutations. -/
def processBudgetUpdate (s : State) (budget_id : String) (new_amount : Int)
    (effective_date : CalDate) : State × Bool :=
  match getSubscriptionById s budget_id with
  | none => (s, false)  -- warning printed; no update performed
  | some _ =>
    let s1 := updateSubscriptionMonthlyAmount s budget_id new_amount
    let effective_month_start := monthStart effective_date
    let s2 :=
      match getBudgetAllocationForMonth s1 budget_id effective_month_start with
      | some allocation =>
        if allocation.status == Status.committed then
          let total_spent :=
            getTotalSpentForBudgetInMonth s1 budget_id effective_month_start
          let new_live_balance := -|new_amount| + total_spent
          let new_live_balance :=
            if 0 < new_live_balance then 0 else new_live_balance
          updateTransactionAmount s1 allocation.id new_live_balance
        else s1
      | none => s1
    (s2, true)

/-! ## Theorems: C3 and C9 (payment-date simulator) -/

/-- **C3.** For every credit-card cycle (`cut_off`, `payment`) and effective
purchase date `d`, whenever the simulator returns a date `r`: if
`payment > cut_off` then `r` is in `d`'s month with day `payment` when
`d.day < cut_off`, and in the month of `d + 1 month` when `d.day ≥ cut_off`
(so a purchase exactly on the cut-off day rolls to the next cycle); if
`payment ≤ cut_off` then `r` is in the month of `d + 1 month` when
`d.day ≤ cut_off` and in the month of `d + 2 months` when `d.day > cut_off`. -/
theorem c3_payment_date_cases (d : CalDate) (cut pay : Nat) (r : CalDate)
    (h : calculateCreditCardPaymentDate d cut pay = some r) :
    ((cut < pay ∧ d.day < cut) →
        r.year = d.year ∧ r.month = d.month ∧ r.day = pay) ∧
    ((cut < pay ∧ cut ≤ d.day) →
        r.year = (d.addMonths 1).year ∧ r.month = (d.addMonths 1).month ∧ r.day = pay) ∧
    ((pay ≤ cut ∧ d.day ≤ cut) →
        r.year = (d.addMonths 1).year ∧ r.month = (d.addMonths 1).month ∧ r.day = pay) ∧
    ((pay ≤ cut ∧ cut < d.day) →
        r.year = (d.addMonths 2).year ∧ r.month = (d.addMonths 2).month ∧ r.day = pay) := by
  unfold calculateCreditCardPaymentDate CalDate.replaceDay at h
  refine ⟨?_, ?_, ?_, ?_⟩ <;> rintro ⟨h1, h2⟩
  · rw [if_pos h1, if_neg (by omega)] at h
    split at h
    · cases Option.some.inj h
      exact ⟨rfl, rfl, rfl⟩
    · exact absurd h (by simp)
  · rw [if_pos h1, if_pos h2] at h
    split at h
    · cases Option.some.inj h
      exact ⟨rfl, rfl, rfl⟩
    · exact absurd h (by simp)
  · rw [if_neg (by omega), if_neg (by omega)] at h
    split at h
    · cases Option.some.inj h
      exact ⟨rfl, rfl, rfl⟩
    · exact absurd h (by simp)
  · rw [if_neg (by omega), if_pos (by omega)] at h
    split at h
    · cases Option.some.inj h
      exact ⟨rfl, rfl, rfl⟩
    · exact absurd h (by simp)

/-- Witness for C3: a purchase on 2025-10-15 with cut-off 15 and payment 25
(exactly the cut-off day) pays on 2025-11-25, the next cycle. -/
theorem c3_payment_date_cases_witness :
    calculateCreditCardPaymentDate ⟨2025, 10, 15⟩ 15 25 = some ⟨2025, 11, 25⟩ ∧
    (2025 = (CalDate.addMonths ⟨2025, 10, 15⟩ 1).year ∧
      11 = (CalDate.addMonths ⟨2025, 10, 15⟩ 1).month ∧ 25 = 25) := by
  refine ⟨by decide, ?_⟩
  have h := (c3_payment_date_cases ⟨2025, 10, 15⟩ 15 25 ⟨2025, 11, 25⟩ (by decide)).2.1
    ⟨by decide, by decide⟩
  exact h

/-- **C9 counterexample.** The claim says the simulator is total and clamps a
nonexistent payment day to the month end.  The code instead raises
`ValueError`: a purchase on 2025-01-20 (day ≥ cut-off 14) with payment day 30
targets 2025-02-30, and `date.replace(day=30)` raises — no date is returned,
where the claim requires Feb 28. -/
theorem c9_not_total_counterexample :
    calculateCreditCardPaymentDate ⟨2025, 1, 20⟩ 14 30 = none := by decide

/-- **C9 (amended).** The simulator is *not* total: it raises exactly when the
payment day does not exist in the target month, and it never clamps — any
returned date has day exactly `payment_day`.  It does return a date whenever
`1 ≤ payment_day ≤ 28` (a day present in every month). -/
theorem c9_partiality_no_clamping (d : CalDate) (cut pay : Nat)
    (h1 : 1 ≤ pay) (h28 : pay ≤ 28) :
    (∃ r, calculateCreditCardPaymentDate d cut pay = some r ∧ r.day = pay) := by
  have hdm : ∀ y m, 28 ≤ daysInMonth y m := by
    intro y m
    unfold daysInMonth
    split
    · split <;> omega
    · split <;> omega
  unfold calculateCreditCardPaymentDate CalDate.replaceDay
  split <;> split <;>
    exact ⟨_, by rw [if_pos ⟨h1, le_trans h28 (hdm _ _)⟩], rfl⟩

/-- Witness for C9 (amended): payment day 25 from a 2025-01-20 purchase with
cut-off 14 yields a date whose day is 25. -/
theorem c9_partiality_no_clamping_witness :
    ∃ r, calculateCreditCardPaymentDate ⟨2025, 1, 20⟩ 14 25 = some r ∧ r.day = 25 :=
  c9_partiality_no_clamping ⟨2025, 1, 20⟩ 14 25 (by decide) (by decide)

/-! ## Toolbox lemmas -/

/-- Every month has at least 28 days. -/
theorem daysInMonth_ge_28 (y m : Nat) : 28 ≤ daysInMonth y m := by
  unfold daysInMonth
  split
  · split <;> omega
  · split <;> omega

/-- `CalDate.le` is reflexive. -/
theorem CalDate.le_refl (d : CalDate) : CalDate.le d d = true := by
  unfold CalDate.le
  simp

/-- `addMonths 0` is the identity on valid dates. -/
theorem CalDate.addMonths_zero_of_valid {d : CalDate} (h : ValidDate d) :
    d.addMonths 0 = d := by
  obtain ⟨h1, h2, h3, h4⟩ := h
  unfold CalDate.addMonths
  have hy : (d.year * 12 + (d.month - 1) + 0) / 12 = d.year := by omega
  have hm : (d.year * 12 + (d.month - 1) + 0) % 12 + 1 = d.month := by omega
  simp only [hy, hm]
  have : min d.day (daysInMonth d.year d.month) = d.day := by omega
  simp [this]

/-- The allocation predicate ignores the `amount` field. -/
theorem allocPred_updateAmount (b : String) (m : CalDate) (t : Txn) (v : Int) :
    allocPred b m { t with amount := v } = allocPred b m t := rfl

/-- Looking up the allocation after `update_transaction_amount`: the same row
is found, with its amount rewritten when it is the updated row. -/
theorem getAlloc_updateAmount (s : State) (b : String) (m : CalDate)
    (i : Nat) (v : Int) (a : Txn)
    (h : getBudgetAllocationForMonth s b m = some a) :
    getBudgetAllocationForMonth (updateTransactionAmount s i v) b m =
      some (if a.id == i then { a with amount := v } else a) := by
  unfold getBudgetAllocationForMonth updateTransactionAmount at *
  simp only
  rw [List.find?_map]
  have hp : (allocPred b m ∘ fun t => if t.id == i then { t with amount := v } else t)
      = allocPred b m := by
    funext t
    simp only [Function.comp_apply]
    split <;> rfl
  rw [hp, h]
  rfl

/-! ## Shared concrete inputs -/

/-- A plain cash account. -/
def cashAccount : Account := ⟨"Cash", "cash", none, none⟩

/-- The empty store. -/
def emptyState : State := ⟨[], [], [], [], 1, 0⟩

/-- A food budget subscription: 200 per month, paid from `Cash`. -/
def subFood : Subscription :=
  ⟨"budget_food", "Food", "Food", 200, "Cash", ⟨2025, 10, 1⟩, none, true, "keep", false⟩

/-- The October 2025 allocation row of `subFood`. -/
def c1Alloc : Txn :=
  ⟨1, ⟨2025, 10, 1⟩, ⟨2025, 10, 1⟩, "Food", some "Cash", -200, some "Food",
    some "budget_food", Status.committed, some "budget_food"⟩

/-- An ordinary October expense of 100 against the food budget. -/
def c1Exp : Txn :=
  ⟨2, ⟨2025, 10, 5⟩, ⟨2025, 10, 5⟩, "groceries", some "Cash", -100, none,
    some "budget_food", Status.committed, none⟩

/-- A positive (refund/income) October row of 50 linked to the food budget. -/
def c1Refund : Txn :=
  ⟨3, ⟨2025, 10, 6⟩, ⟨2025, 10, 6⟩, "refund", some "Cash", 50, none,
    some "budget_food", Status.committed, none⟩

/-- Store with a mixed-sign spending history against the food budget. -/
def c1State : State := ⟨[c1Alloc, c1Exp, c1Refund], [subFood], [cashAccount], [], 4, 0⟩

/-! ## C1: recalculation formula -/

/-- **C1 counterexample.**  The claim computes `S = Σ |tx.amount|` per row.
On a store holding an expense of −100 and a refund of +50 against the budget
(monthly amount 200), the code's recalculation stores
`-200 + min(|−100 + 50|, 200) = -150`, while the claim's formula gives
`-200 + min(|−100| + |50|, 200) = -50`. -/
theorem c1_recalculate_counterexample :
    (getBudgetAllocationForMonth
        (recalcAndUpdateBudget c1State "budget_food" ⟨2025, 10, 1⟩)
        "budget_food" ⟨2025, 10, 1⟩).map (·.amount) = some (-150) ∧
    -(200 : Int) +
        min (((c1State.transactions.filter
          (spentPred "budget_food" ⟨2025, 10, 1⟩)).map (fun t => |t.amount|)).sum)
          200 = -50 ∧
    (-150 : Int) ≠ -50 := by
  refine ⟨by decide, by decide, by decide⟩

/-- **C1 (amended).**  For every budget subscription `b` that resolves and
every month `m` whose allocation row exists, after
`_recalculate_and_update_budget(budget_id, month)` the allocation's signed
amount equals `-A + min(S, A)` with `A = b.monthly_amount` and
`S = |Σ tx.amount|` — the absolute value of the *net* sum over all
transactions with `tx.budget = b.id`, `tx.origin_id ≠ b.id`,
`tx.date_created` in month `m` and `tx.status ≠ Pending` (this agrees with
the claim's `Σ |tx.amount|` only when all those amounts share one sign). -/
theorem c1_recalculate_formula (s : State) (b : String) (m : CalDate)
    (sub : Subscription) (alloc : Txn)
    (hsub : getSubscriptionById s b = some sub)
    (halloc : getBudgetAllocationForMonth s b m = some alloc) :
    getBudgetAllocationForMonth (recalcAndUpdateBudget s b m) b m =
      some { alloc with amount := (-sub.monthly_amount +
        min (|((s.transactions.filter (spentPred b m)).map (·.amount)).sum|)
          sub.monthly_amount) } := by
  unfold recalcAndUpdateBudget
  rw [hsub, halloc]
  have hbeq : (alloc.id == alloc.id) = true := by simp
  rw [getAlloc_updateAmount s b m alloc.id _ alloc halloc, hbeq]
  rfl

/-- Witness for C1 (amended) on the concrete mixed-sign store. -/
theorem c1_recalculate_formula_witness :
    getBudgetAllocationForMonth
        (recalcAndUpdateBudget c1State "budget_food" ⟨2025, 10, 1⟩)
        "budget_food" ⟨2025, 10, 1⟩ =
      some { c1Alloc with amount := -150 } := by
  have h := c1_recalculate_formula c1State "budget_food" ⟨2025, 10, 1⟩ subFood c1Alloc
    (by decide) (by decide)
  rw [h]
  decide

/-! ## C5: monthly rollover -/

/-- **C5 (code bug).**  `main.run_monthly_rollover` calls
`repository.commit_forecasts_for_month`, an attribute `repository.py` does not
define (its function is `commit_past_and_current_forecasts`), so every
invocation raises `AttributeError` before committing any forecast or
generating anything — the tests (`test_main.test_run_monthly_rollover_integration`
and others) call it expecting the claimed behavior. -/
theorem c5_rollover_raises (s : State) (d : CalDate) :
    runMonthlyRollover s d =
      Except.error
        "AttributeError: module repository has no attribute commit_forecasts_for_month" :=
  rfl

/-! ## C10: is_income dropped by the controller -/

/-- Store with just a cash account, as in
`test_pending_transactions.test_pending_expense_does_not_affect_running_balance`. -/
def c10State : State := ⟨[], [], [cashAccount], [], 1, 0⟩

/-- **C10 (code bug).**  A Simple request with `is_income = true` and amount
1000 processed by `process_transaction_request` is stored with amount
`-1000` and, likewise, a request with `is_pending = true` is stored
`committed`: the controller never forwards `is_income` / `is_pending` /
`is_planning` to `create_single_transaction`.  The repository's own test
(`test_pending_transactions`) asserts the stored income is `+1000`. -/
theorem c10_is_income_dropped :
    (processTransactionRequest c10State
        (Request.simple "Initial Balance" 1000 "Cash" none none 0 true false false)
        ⟨2025, 10, 5⟩).map
      (fun s => s.transactions.map fun t => (t.amount, t.status)) =
      some [(-1000, Status.committed)] := by
  decide

/-! ## C7: allocation-row uniqueness -/

/-- A `return`-policy food budget. -/
def subFoodReturn : Subscription :=
  ⟨"budget_food", "Food", "Food", 200, "Cash", ⟨2025, 10, 1⟩, none, true, "return", false⟩

/-- An underspent committed October allocation (−50 left). -/
def c7Alloc : Txn :=
  ⟨1, ⟨2025, 10, 1⟩, ⟨2025, 10, 1⟩, "Food", some "Cash", -50, some "Food",
    some "budget_food", Status.committed, some "budget_food"⟩

/-- Store about to run month-end reconciliation. -/
def c7State : State := ⟨[c7Alloc], [subFoodReturn], [cashAccount], [], 2, 0⟩

/-- Number of rows with `origin_id = b` and `date_created` in month `m` that
are not Budget Release rows. -/
def nonReleaseAllocCount (s : State) (b : String) (m : CalDate) : Nat :=
  (s.transactions.filter fun t =>
    allocPred b m t && !(t.category == some "Budget Release")).length

/-- **C7 counterexample.**  After `run_monthly_budget_reconciliation` with
`Return` underspend behavior, *two* rows with `origin_id = budget_id` and
`date_created` in the month exist — the zeroed allocation and the newly
inserted Budget Release (which `create_budget_release_transaction` also gives
`origin_id = budget_id` and `date_created = month_date`) — refuting
"at most one". -/
theorem c7_uniqueness_counterexample :
    (runMonthlyBudgetReconciliation c7State ⟨2025, 10, 1⟩).map
        (fun s => (s.transactions.filter (allocPred "budget_food" ⟨2025, 10, 1⟩)).length)
      = some 2 ∧ ¬ (2 ≤ 1) := by
  refine ⟨by decide, by decide⟩

/-- Updating a transaction amount does not change the non-Release allocation
count. -/
theorem nonReleaseAllocCount_updateAmount (s : State) (i : Nat) (v : Int)
    (b : String) (m : CalDate) :
    nonReleaseAllocCount (updateTransactionAmount s i v) b m =
      nonReleaseAllocCount s b m := by
  unfold nonReleaseAllocCount updateTransactionAmount
  simp only
  have hp : ((fun t => allocPred b m t && !(t.category == some "Budget Release")) ∘
      (fun t => if t.id == i then { t with amount := v } else t)) =
      fun t => allocPred b m t && !(t.category == some "Budget Release") := by
    funext t
    simp only [Function.comp_apply]
    split <;> rfl
  rw [List.filter_map, hp, List.length_map]

/-- Inserting one Budget Release row does not change the non-Release
allocation count. -/
theorem nonReleaseAllocCount_addRelease (s : State) (r : Txn)
    (hr : r.category = some "Budget Release") (b : String) (m : CalDate) :
    nonReleaseAllocCount (addTransactions s [r]) b m =
      nonReleaseAllocCount s b m := by
  unfold nonReleaseAllocCount addTransactions assignIds
  simp only
  rw [List.filter_append]
  have hcat : ({ r with id := s.nextId } : Txn).category = some "Budget Release" := hr
  simp [hcat]
  exact ⟨fun _ => hr, fun a ha => absurd ha (by simp [assignIds])⟩

/-- The reconciliation loop only inserts Budget Release rows and rewrites
amounts, so the non-Release allocation count of every `(budget, month)` pair
is unchanged. -/
theorem reconcileLoop_nonReleaseCount (month_date : CalDate) (b : String)
    (m : CalDate) :
    ∀ (subs : List Subscription) (s s' : State),
      reconcileLoop s month_date subs = some s' →
      nonReleaseAllocCount s' b m = nonReleaseAllocCount s b m := by
  intro subs
  induction subs with
  | nil =>
    intro s s' h
    unfold reconcileLoop at h
    cases Option.some.inj h
    rfl
  | cons bsub rest ih =>
    intro s s' h
    unfold reconcileLoop at h
    split at h
    next allocation halloc =>
      split at h
      next hcond =>
        split at h
        next hacc => exact Option.noConfusion h
        next account hacc =>
          have h1 := nonReleaseAllocCount_updateAmount
            (addTransactions s [createBudgetReleaseTransaction bsub.id bsub.name
              (|allocation.amount|) account month_date]) allocation.id 0 b m
          have h2 := nonReleaseAllocCount_addRelease s
            (createBudgetReleaseTransaction bsub.id bsub.name
              (|allocation.amount|) account month_date) rfl b m
          exact (ih _ _ h).trans (h1.trans h2)
      next hcond => exact ih s s' h
    next halloc => exact ih s s' h

/-- **C7 (amended).**  At most one *allocation* row per `(budget, month)` can
only be maintained if Budget Release rows are not counted as allocations:
month-end reconciliation with `Return` deliberately inserts a second row with
`origin_id = budget_id` and `date_created` in the month (the positive Budget
Release, category `"Budget Release"`).  Reconciliation never changes the
number of non-Release rows with `origin_id = b` and `date_created` in `m`:
if that count was at most one before, it still is. -/
theorem c7_reconciliation_preserves_nonrelease_count (s s' : State)
    (month_date : CalDate) (b : String) (m : CalDate)
    (h : runMonthlyBudgetReconciliation s month_date = some s') :
    nonReleaseAllocCount s' b m = nonReleaseAllocCount s b m := by
  unfold runMonthlyBudgetReconciliation at h
  exact reconcileLoop_nonReleaseCount month_date b m _ s s' h

/-- The post-reconciliation store of `c7State`: allocation zeroed, release
row appended. -/
def c7Post : State :=
  ⟨[{ c7Alloc with amount := 0 },
    ⟨2, ⟨2025, 10, 1⟩, ⟨2025, 10, 1⟩, "Food Budget Release 2025-10", some "Cash",
      50, some "Budget Release", some "budget_food", Status.committed,
      some "budget_food"⟩],
   [subFoodReturn], [cashAccount], [], 3, 0⟩

/-- Witness for C7 (amended) on the concrete reconciliation run. -/
theorem c7_reconciliation_preserves_nonrelease_count_witness :
    nonReleaseAllocCount c7Post "budget_food" ⟨2025, 10, 1⟩ =
      nonReleaseAllocCount c7State "budget_food" ⟨2025, 10, 1⟩ :=
  c7_reconciliation_preserves_nonrelease_count c7State c7Post ⟨2025, 10, 1⟩
    "budget_food" ⟨2025, 10, 1⟩ (by decide)

/-! ## C4: auto-created allocation on add -/

/-- Months produced by `addMonths` are always in `1..12`. -/
theorem CalDate.addMonths_month_bounds (d : CalDate) (k : Nat) :
    1 ≤ (d.addMonths k).month ∧ (d.addMonths k).month ≤ 12 := by
  unfold CalDate.addMonths
  simp only
  omega

/-- The first of a month is a valid date. -/
theorem validDate_monthStart (d : CalDate) (h1 : 1 ≤ d.month) (h2 : d.month ≤ 12) :
    ValidDate (monthStart d) := by
  refine ⟨h1, h2, le_refl 1, ?_⟩
  show (1 : Nat) ≤ daysInMonth d.year d.month
  have h28 := daysInMonth_ge_28 d.year d.month
  omega

/-- The first of `d`'s month lies in `d`'s month. -/
theorem inMonth_monthStart (d : CalDate) : inMonth (monthStart d) d = true := by
  have h28 := daysInMonth_ge_28 d.year d.month
  simp only [inMonth, monthStart, monthEnd, CalDate.le, CalDate.monthIdx,
    Bool.and_eq_true, Bool.or_eq_true, decide_eq_true_eq, beq_iff_eq]
  exact ⟨Or.inr ⟨trivial, le_refl 1⟩, Or.inr ⟨trivial, by omega⟩⟩

/-- Allocation lookup after inserting one row. -/
theorem getAlloc_addOne (s : State) (t : Txn) (b : String) (m : CalDate) :
    getBudgetAllocationForMonth (addTransactions s [t]) b m =
      (getBudgetAllocationForMonth s b m).or
        (if allocPred b m { t with id := s.nextId } then
          some { t with id := s.nextId } else none) := by
  unfold getBudgetAllocationForMonth addTransactions assignIds
  simp only
  rw [List.find?_append]
  congr 1
  cases hp : allocPred b m { t with id := s.nextId } <;>
    simp [List.find?_cons, hp, assignIds]

/-- When no allocation exists for the expense's `date_payed` month,
`_apply_expense_to_budget` creates one dated the first of that month, with
amount `-A`, status Forecast and `origin_id = budget_id`, and then applies
`min(|expense|, A)` to it. -/
theorem applyExpense_autocreate (s : State) (e : Txn) (b : String)
    (sub : Subscription) (bacc : Account)
    (hb : e.budget = some b)
    (hnoalloc : getBudgetAllocationForMonth s b e.date_payed = none)
    (hsub : getSubscriptionById s b = some sub)
    (hbacc : getAccountByName s sub.payment_account_id = some bacc)
    (hbacctype : (bacc.account_type == "credit_card") = false)
    (hA : 0 ≤ sub.monthly_amount)
    (hm1 : 1 ≤ e.date_payed.month) (hm2 : e.date_payed.month ≤ 12) :
    ∃ s2, applyExpenseToBudget s e = some s2 ∧
      getBudgetAllocationForMonth s2 b e.date_payed =
        some { id := s.nextId
               date_created := monthStart e.date_payed
               date_payed := monthStart e.date_payed
               description := sub.name
               account := some bacc.account_id
               amount := (-sub.monthly_amount +
                 min (|e.amount|) sub.monthly_amount)
               category := some sub.category
               budget := some b
               status := Status.forecast
               origin_id := some b } := by
  have hstart : ValidDate (monthStart e.date_payed) :=
    validDate_monthStart _ hm1 hm2
  have haz : (monthStart e.date_payed).addMonths 0 = monthStart e.date_payed :=
    CalDate.addMonths_zero_of_valid hstart
  have habs : |sub.monthly_amount| = sub.monthly_amount := abs_of_nonneg hA
  have hcreate : createSingleTransaction sub.name sub.monthly_amount
      (some sub.category) (some b) bacc (monthStart e.date_payed) 0
      false false false =
      some { id := 0
             date_created := monthStart e.date_payed
             date_payed := monthStart e.date_payed
             description := sub.name
             account := some bacc.account_id
             amount := -sub.monthly_amount
             category := some sub.category
             budget := some b
             status := Status.committed
             origin_id := none } := by
    simp [createSingleTransaction, hbacctype, haz, habs]
  have hfound : getBudgetAllocationForMonth
      (addTransactions s
        [{ id := 0
           date_created := monthStart e.date_payed
           date_payed := monthStart e.date_payed
           description := sub.name
           account := some bacc.account_id
           amount := -sub.monthly_amount
           category := some sub.category
           budget := some b
           status := Status.forecast
           origin_id := some b }]) b e.date_payed =
      some { id := s.nextId
             date_created := monthStart e.date_payed
             date_payed := monthStart e.date_payed
             description := sub.name
             account := some bacc.account_id
             amount := -sub.monthly_amount
             category := some sub.category
             budget := some b
             status := Status.forecast
             origin_id := some b } := by
    rw [getAlloc_addOne, hnoalloc]
    have hpred : allocPred b e.date_payed
        { id := s.nextId
          date_created := monthStart e.date_payed
          date_payed := monthStart e.date_payed
          description := sub.name
          account := some bacc.account_id
          amount := -sub.monthly_amount
          category := some sub.category
          budget := some b
          status := Status.forecast
          origin_id := some b } = true := by
      unfold allocPred
      simp [inMonth_monthStart]
    simp [hpred]
  simp only [applyExpenseToBudget, hb, hnoalloc, hsub, hbacc, hcreate, hfound]
  refine ⟨_, rfl, ?_⟩
  have hupd := getAlloc_updateAmount _ b e.date_payed s.nextId
    (-sub.monthly_amount + min (|e.amount|) (|(-sub.monthly_amount : Int)|)) _ hfound
  unfold applyAllocStep
  simp only
  rw [hupd]
  simp [abs_neg, habs]

/-- A shopping budget subscription paid from `Cash`. -/
def subShop : Subscription :=
  ⟨"budget_shopping", "Shopping", "Shopping", 300, "Cash", ⟨2025, 10, 1⟩, none,
    true, "keep", false⟩

/-- Store holding the shopping budget and the cash account only. -/
def c4State : State := ⟨[], [subShop], [cashAccount], [], 1, 0⟩

/-- **C4 counterexample.**  A Simple cash request with a two-month grace
period dated 2025-10-05 produces a row with `date_created` in October and
`date_payed` in December.  The claim demands an auto-created allocation for
`(budget, October)`; the code instead keys the auto-creation by the row's
`date_payed` month: after processing, October has *no* allocation while
December has one (dated 2025-12-01, amount −300 + min(75, 300) = −225). -/
theorem c4_autocreate_counterexample :
    ((processTransactionRequest c4State
        (Request.simple "Future purchase" 75 "Cash" none (some "budget_shopping")
          2 false false false) ⟨2025, 10, 5⟩).map
      (fun s => (getBudgetAllocationForMonth s "budget_shopping" ⟨2025, 10, 1⟩).isSome)
        = some false) ∧
    ((processTransactionRequest c4State
        (Request.simple "Future purchase" 75 "Cash" none (some "budget_shopping")
          2 false false false) ⟨2025, 10, 5⟩).map
      (fun s => (getBudgetAllocationForMonth s "budget_shopping" ⟨2025, 12, 1⟩).map
        fun t => (t.date_created, t.amount, t.status, t.origin_id))
        = some (some (⟨2025, 12, 1⟩, -225, Status.forecast, some "budget_shopping"))) := by
  refine ⟨by decide, by decide⟩

/-- **C4 (amended).**  For a Simple add request carrying budget `b` on a
non-credit account: when no allocation exists for the pair
`(b, month of the inserted row's date_payed)` (not `date_created` as
claimed), one is auto-created with amount `-b.monthly_amount`, status
Forecast, `origin_id = b.id`, dated the first of the `date_payed` month, and
its amount is then increased by `min(|row.amount|, b.monthly_amount)` —
which is the §4.3 steady state for that pair exactly when the row's
`date_created` falls in the same month and no other rows bind the budget
there. -/
theorem c4_add_autocreates_for_payed_month (s : State) (b : String)
    (description : String) (amount : Int) (aname : String)
    (category : Option String) (grace : Nat) (inc pend plan : Bool)
    (d : CalDate) (acc bacc : Account) (sub : Subscription)
    (hacc : getAccountByName s aname = some acc)
    (hacctype : (acc.account_type == "credit_card") = false)
    (hsub : getSubscriptionById s b = some sub)
    (hbacc : getAccountByName s sub.payment_account_id = some bacc)
    (hbacctype : (bacc.account_type == "credit_card") = false)
    (hA : 0 ≤ sub.monthly_amount)
    (hnoalloc : getBudgetAllocationForMonth s b (d.addMonths grace) = none) :
    ∃ s', processTransactionRequest s
        (Request.simple description amount aname category (some b) grace inc pend plan) d
      = some s' ∧
      getBudgetAllocationForMonth s' b (d.addMonths grace) =
        some { id := s.nextId + 1
               date_created := monthStart (d.addMonths grace)
               date_payed := monthStart (d.addMonths grace)
               description := sub.name
               account := some bacc.account_id
               amount := (-sub.monthly_amount + min (|amount|) sub.monthly_amount)
               category := some sub.category
               budget := some b
               status := Status.forecast
               origin_id := some b } := by
  have hexp : createSingleTransaction description amount category (some b) acc d
      grace false false false =
      some { id := 0
             date_created := d
             date_payed := d.addMonths grace
             description := description
             account := some acc.account_id
             amount := -|amount|
             category := category
             budget := some b
             status := Status.committed
             origin_id := none } := by
    simp [createSingleTransaction, hacctype]
  simp only [processTransactionRequest, hacc, hexp, Option.map_some]
  set e : Txn :=
    { id := 0
      date_created := d
      date_payed := d.addMonths grace
      description := description
      account := some acc.account_id
      amount := -|amount|
      category := category
      budget := some b
      status := Status.committed
      origin_id := none } with he
  set s1 : State := addTransactions { s with nextOrigin := s.nextOrigin + 1 } [e]
    with hs1
  have hnoalloc1 : getBudgetAllocationForMonth s1 b e.date_payed = none := by
    rw [hs1]
    rw [getAlloc_addOne]
    have h0 : getBudgetAllocationForMonth { s with nextOrigin := s.nextOrigin + 1 }
        b e.date_payed = none := hnoalloc
    rw [h0]
    have hp : allocPred b e.date_payed
        { e with id := ({ s with nextOrigin := s.nextOrigin + 1 } : State).nextId }
        = false := by
      unfold allocPred
      rfl
    simp [hp]
  have hmb := CalDate.addMonths_month_bounds d grace
  obtain ⟨s2, happ, hfinal⟩ := applyExpense_autocreate s1 e b sub bacc rfl hnoalloc1
    hsub hbacc hbacctype hA hmb.1 hmb.2
  refine ⟨s2, ?_, ?_⟩
  · show applyAllExpenses s1 [e] = some s2
    simp only [applyAllExpenses, happ]
  · have hid : s1.nextId = s.nextId + 1 := rfl
    have habs2 : |e.amount| = |amount| := by
      rw [he]
      simp [abs_neg]
    rw [← hid, ← habs2]
    exact hfinal

/-- Witness for C4 (amended) on the concrete shop-budget store. -/
theorem c4_add_autocreates_for_payed_month_witness :
    ∃ s', processTransactionRequest c4State
        (Request.simple "Future purchase" 75 "Cash" none (some "budget_shopping")
          2 false false false) ⟨2025, 10, 5⟩
      = some s' ∧
      getBudgetAllocationForMonth s' "budget_shopping"
          (CalDate.addMonths ⟨2025, 10, 5⟩ 2) =
        some { id := c4State.nextId + 1
               date_created := monthStart (CalDate.addMonths ⟨2025, 10, 5⟩ 2)
               date_payed := monthStart (CalDate.addMonths ⟨2025, 10, 5⟩ 2)
               description := subShop.name
               account := some cashAccount.account_id
               amount := (-subShop.monthly_amount +
                 min (|(75 : Int)|) subShop.monthly_amount)
               category := some subShop.category
               budget := some "budget_shopping"
               status := Status.forecast
               origin_id := some "budget_shopping" } :=
  c4_add_autocreates_for_payed_month c4State "budget_shopping" "Future purchase"
    75 "Cash" none 2 false false false ⟨2025, 10, 5⟩ cashAccount cashAccount
    subShop (by decide) (by decide) (by decide) (by decide) (by decide)
    (by decide) (by decide)

/-! ## C6: running balance -/

/-- Strict lexicographic order on `(date_payed, id)`; the date component is
compared chronologically (month index, then day). -/
def payedIdLt (a b : Txn) : Prop :=
  a.date_payed.monthIdx < b.date_payed.monthIdx ∨
    (a.date_payed.monthIdx = b.date_payed.monthIdx ∧
      (a.date_payed.day < b.date_payed.day ∨
        (a.date_payed.day = b.date_payed.day ∧ a.id < b.id)))

/-- Unfolding of `CalDate.le` into arithmetic form. -/
theorem CalDate.le_iff {a b : CalDate} :
    (CalDate.le a b = true) ↔
      a.monthIdx < b.monthIdx ∨ (a.monthIdx = b.monthIdx ∧ a.day ≤ b.day) := by
  unfold CalDate.le
  simp [Bool.or_eq_true, Bool.and_eq_true, decide_eq_true_eq, beq_iff_eq]

/-- Unfolding of `CalDate.lt` into arithmetic form. -/
theorem CalDate.lt_iff {a b : CalDate} :
    (CalDate.lt a b = true) ↔
      a.monthIdx < b.monthIdx ∨ (a.monthIdx = b.monthIdx ∧ a.day < b.day) := by
  unfold CalDate.lt
  simp [Bool.or_eq_true, Bool.and_eq_true, decide_eq_true_eq, beq_iff_eq]

/-- Membership in an `insertByPayed` result. -/
theorem mem_insertByPayed {t x : Txn} :
    ∀ {l : List Txn}, x ∈ insertByPayed t l ↔ x = t ∨ x ∈ l := by
  intro l
  induction l with
  | nil => simp [insertByPayed]
  | cons u us ih =>
    unfold insertByPayed
    split <;> simp [ih] <;> tauto

/-- `insertByPayed` produces a permutation of consing. -/
theorem insertByPayed_perm (t : Txn) :
    ∀ (l : List Txn), (insertByPayed t l).Perm (t :: l) := by
  intro l
  induction l with
  | nil => simp [insertByPayed]
  | cons u us ih =>
    unfold insertByPayed
    split
    · exact List.Perm.refl _
    · exact (List.Perm.cons u ih).trans (List.Perm.swap t u us)

/-- `sortByPayed` permutes the table. -/
theorem sortByPayed_perm : ∀ (l : List Txn), (sortByPayed l).Perm l := by
  intro l
  induction l with
  | nil => exact List.Perm.refl _
  | cons t ts ih =>
    exact (insertByPayed_perm t (sortByPayed ts)).trans (List.Perm.cons t ih)

/-- Inserting a row whose id is below every id of an already
`(date_payed, id)`-sorted list keeps the list sorted: this is exactly the
stability of `ORDER BY date_payed` over rowid order. -/
theorem insertByPayed_pairwise (t : Txn) :
    ∀ (l : List Txn), l.Pairwise payedIdLt → (∀ u ∈ l, t.id < u.id) →
      (insertByPayed t l).Pairwise payedIdLt := by
  intro l
  induction l with
  | nil =>
    intro _ _
    simp [insertByPayed]
  | cons u us ih =>
    intro hp hid
    rw [List.pairwise_cons] at hp
    unfold insertByPayed
    split
    next hle =>
      rw [CalDate.le_iff] at hle
      refine List.Pairwise.cons ?_ (List.Pairwise.cons hp.1 hp.2)
      intro w hw
      rcases List.mem_cons.mp hw with hw | hw
      · subst hw
        have := hid w (List.mem_cons_self w us)
        unfold payedIdLt
        omega
      · have huw := hp.1 w hw
        have hidw := hid w (List.mem_cons_of_mem u hw)
        unfold payedIdLt at huw ⊢
        omega
    next hle =>
      rw [CalDate.le_iff] at hle
      refine List.Pairwise.cons ?_ ?_
      · intro w hw
        rcases mem_insertByPayed.mp hw with hw | hw
        · subst hw
          unfold payedIdLt
          omega
        · exact hp.1 w hw
      · exact ih hp.2 fun v hv => hid v (List.mem_cons_of_mem u hv)

/-- `ORDER BY date_payed` over a table whose rowids increase yields the
`(date_payed, id)`-ascending order. -/
theorem sortByPayed_pairwise :
    ∀ (l : List Txn), l.Pairwise (fun a b => a.id < b.id) →
      (sortByPayed l).Pairwise payedIdLt := by
  intro l
  induction l with
  | nil =>
    intro _
    simp [sortByPayed]
  | cons t ts ih =>
    intro h
    rw [List.pairwise_cons] at h
    exact insertByPayed_pairwise t (sortByPayed ts) (ih h.2)
      fun u hu => h.1 u ((sortByPayed_perm ts).subset hu)

/-- Sum of amounts over the non-`pending` rows. -/
def nonPendingSum (l : List Txn) : Int :=
  ((l.filter fun t => !(t.status == Status.pending)).map (·.amount)).sum

/-- The annotated rows are the input rows. -/
theorem annotateBalance_map_fst :
    ∀ (b : Int) (l : List Txn), (annotateBalance b l).map Prod.fst = l := by
  intro b l
  induction l generalizing b with
  | nil => rfl
  | cons t ts ih =>
    show ((t, if t.status == Status.pending then b else b + t.amount) ::
        annotateBalance (if t.status == Status.pending then b else b + t.amount)
          ts).map Prod.fst = t :: ts
    simp only [List.map_cons]
    rw [ih]

/-- The annotation preserves length. -/
theorem annotateBalance_length (b : Int) (l : List Txn) :
    (annotateBalance b l).length = l.length := by
  have h := annotateBalance_map_fst b l
  have := congrArg List.length h
  simpa using this

/-- The i-th annotated balance is the start balance plus the non-pending sum
of the first `i+1` rows. -/
theorem annotateBalance_get_snd :
    ∀ (l : List Txn) (b : Int) (i : Nat) (hi : i < (annotateBalance b l).length),
      ((annotateBalance b l).get ⟨i, hi⟩).2 = b + nonPendingSum (l.take (i + 1)) := by
  intro l
  induction l with
  | nil =>
    intro b i hi
    simp [annotateBalance] at hi
  | cons t ts ih =>
    intro b i hi
    cases i with
    | zero =>
      show (if t.status == Status.pending then b else b + t.amount) =
        b + nonPendingSum ((t :: ts).take (0 + 1))
      unfold nonPendingSum
      cases hp : (t.status == Status.pending) <;>
        simp [List.take, List.filter_cons, hp]
    | succ j =>
      have hj : j < (annotateBalance
          (if t.status == Status.pending then b else b + t.amount) ts).length := by
        rw [annotateBalance_length] at hi ⊢
        simp only [List.length_cons] at hi
        omega
      have hstep : ((annotateBalance b (t :: ts)).get ⟨j + 1, hi⟩).2 =
          ((annotateBalance (if t.status == Status.pending then b else b + t.amount)
            ts).get ⟨j, hj⟩).2 := rfl
      rw [hstep, ih _ j hj]
      unfold nonPendingSum
      cases hp : (t.status == Status.pending) <;>
        simp [List.take, List.filter_cons, hp] <;> ring

/-- The first component of the i-th annotated row is the i-th input row. -/
theorem get_fst_annotateBalance :
    ∀ (l : List Txn) (b : Int) (i : Nat)
      (hi : i < (annotateBalance b l).length) (hi' : i < l.length),
      ((annotateBalance b l).get ⟨i, hi⟩).1 = l.get ⟨i, hi'⟩ := by
  intro l
  induction l with
  | nil =>
    intro b i hi hi'
    simp [annotateBalance] at hi
  | cons t ts ih =>
    intro b i hi hi'
    cases i with
    | zero => rfl
    | succ j =>
      have hj : j < (annotateBalance
          (if t.status == Status.pending then b else b + t.amount) ts).length := by
        rw [annotateBalance_length] at hi ⊢
        simp only [List.length_cons] at hi
        omega
      have hj' : j < ts.length := by simpa using hi'
      exact ih _ j hj hj'

/-- A Pending row's annotated balance equals the preceding row's balance. -/
theorem annotateBalance_pending (l : List Txn) (b : Int) (i : Nat)
    (hi : i + 1 < (annotateBalance b l).length)
    (hp : ((annotateBalance b l).get ⟨i + 1, hi⟩).1.status = Status.pending) :
    ((annotateBalance b l).get ⟨i + 1, hi⟩).2 =
      ((annotateBalance b l).get ⟨i, Nat.lt_of_succ_lt hi⟩).2 := by
  have hlen : (annotateBalance b l).length = l.length := annotateBalance_length b l
  have hi' : i + 1 < l.length := hlen ▸ hi
  rw [annotateBalance_get_snd l b (i + 1) hi,
    annotateBalance_get_snd l b i (Nat.lt_of_succ_lt hi)]
  have hfst : ((annotateBalance b l).get ⟨i + 1, hi⟩).1 = l.get ⟨i + 1, hi'⟩ :=
    get_fst_annotateBalance l b (i + 1) hi hi'
  rw [hfst] at hp
  have htake : l.take (i + 1 + 1) = l.take (i + 1) ++ [l.get ⟨i + 1, hi'⟩] := by
    rw [List.take_succ]
    congr 1
    rw [List.getElem?_eq_getElem hi']
    simp [List.get_eq_getElem]
  rw [htake]
  unfold nonPendingSum
  rw [List.filter_append, List.map_append, List.sum_append]
  have hone : (([l.get ⟨i + 1, hi'⟩].filter fun t =>
      !(t.status == Status.pending)).map (·.amount)).sum = 0 := by
    simp only [List.get_eq_getElem] at hp
    simp [List.filter_cons, hp]
  rw [hone]
  ring

/-- **C6.**  The running-balance projection orders the table by
`(date_payed, id)` ascending (the stable `ORDER BY date_payed` over
increasing rowids), accumulates `amount` over exactly the rows with
`status ≠ Pending`, annotates every row — Pending included — with the
running balance after itself, and a Pending row's annotated balance equals
the preceding row's. -/
theorem c6_running_balance (s : State)
    (hids : s.transactions.Pairwise (fun a b => a.id < b.id)) :
    ((getTransactionsWithRunningBalance s).map Prod.fst).Perm s.transactions ∧
    ((getTransactionsWithRunningBalance s).map Prod.fst).Pairwise payedIdLt ∧
    (∀ (i : Nat) (hi : i < (getTransactionsWithRunningBalance s).length),
      ((getTransactionsWithRunningBalance s).get ⟨i, hi⟩).2 =
        nonPendingSum
          (((getTransactionsWithRunningBalance s).map Prod.fst).take (i + 1))) ∧
    (∀ (i : Nat) (hi : i + 1 < (getTransactionsWithRunningBalance s).length),
      ((getTransactionsWithRunningBalance s).get ⟨i + 1, hi⟩).1.status =
          Status.pending →
      ((getTransactionsWithRunningBalance s).get ⟨i + 1, hi⟩).2 =
        ((getTransactionsWithRunningBalance s).get
          ⟨i, Nat.lt_of_succ_lt hi⟩).2) := by
  refine ⟨?_, ?_, ?_, ?_⟩
  · unfold getTransactionsWithRunningBalance getAllTransactions
    rw [annotateBalance_map_fst]
    exact sortByPayed_perm _
  · unfold getTransactionsWithRunningBalance getAllTransactions
    rw [annotateBalance_map_fst]
    exact sortByPayed_pairwise _ hids
  · intro i hi
    unfold getTransactionsWithRunningBalance getAllTransactions at *
    rw [annotateBalance_get_snd _ 0 i hi, annotateBalance_map_fst]
    ring
  · intro i hi hp
    exact annotateBalance_pending _ 0 i hi hp

/-- Store with a committed income of 100 and a pending expense of 50. -/
def c6State : State :=
  ⟨[⟨1, ⟨2025, 10, 1⟩, ⟨2025, 10, 1⟩, "income", some "Cash", 100, none, none,
      Status.committed, none⟩,
    ⟨2, ⟨2025, 10, 2⟩, ⟨2025, 10, 2⟩, "pending purchase", some "Cash", -50, none,
      none, Status.pending, none⟩],
   [], [cashAccount], [], 3, 0⟩

/-- Witness for C6: the pending row's annotated balance equals the preceding
row's. -/
theorem c6_running_balance_witness :
    ((getTransactionsWithRunningBalance c6State).get ⟨0 + 1, by decide⟩).2 =
      ((getTransactionsWithRunningBalance c6State).get
        ⟨0, Nat.lt_of_succ_lt (by decide)⟩).2 :=
  (c6_running_balance c6State (by decide)).2.2.2 0 (by decide) (by decide)

/-! ## C2: allocation range invariant -/

/-- The §4.3 range invariant: every allocation row (first row with
`origin_id = b` and `date_created` in the month, which is what every lookup
in the code retrieves) of every budget subscription lies in
`[-monthly_amount, 0]`. -/
def BudgetRangeInvariant (s : State) : Prop :=
  ∀ σ ∈ s.subscriptions, σ.is_budget = true →
    ∀ (m : CalDate) (t : Txn),
      getBudgetAllocationForMonth s σ.id m = some t →
      -σ.monthly_amount ≤ t.amount ∧ t.amount ≤ 0

/-- Structural wellformedness of a store, as the engine itself maintains it:
increasing AUTOINCREMENT ids below the counter, unique subscription ids,
nonnegative monthly amounts, no income budgets, valid row dates, and
budget-owned rows that carry their budget id and pay in their own month. -/
structure StoreWF (s : State) : Prop where
  idsInc : s.transactions.Pairwise (fun a b => a.id < b.id)
  idsLt : ∀ t ∈ s.transactions, t.id < s.nextId
  subIds : s.subscriptions.Pairwise (fun a b => a.id ≠ b.id)
  subNonneg : ∀ σ ∈ s.subscriptions, 0 ≤ σ.monthly_amount
  subNoBudgetIncome : ∀ σ ∈ s.subscriptions,
    ¬(σ.is_budget = true ∧ σ.is_income = true)
  validDates : ∀ t ∈ s.transactions, ValidDate t.date_created ∧ ValidDate t.date_payed
  originWF : ∀ t ∈ s.transactions, ∀ σ ∈ s.subscriptions, σ.is_budget = true →
    t.origin_id = some σ.id →
    t.budget = some σ.id ∧ t.date_payed.monthIdx = t.date_created.monthIdx

/-- The engine operations covered by the amended claim. -/
inductive EngineStep : State → State → Prop where
  | recalc (s : State) (budget_id : String) (month_date : CalDate) :
      EngineStep s (recalcAndUpdateBudget s budget_id month_date)
  | addSimple (s s' : State) (description : String) (amount : Int)
      (account : String) (category budget : Option String)
      (grace_period_months : Nat) (inc pend plan : Bool) (d : CalDate)
      (hr : processTransactionRequest s
        (Request.simple description amount account category budget
          grace_period_months inc pend plan) d = some s') :
      EngineStep s s'
  | deleteTx (s : State) (transaction_id : Nat) :
      EngineStep s (processTransactionDeletion s transaction_id)
  | reconcile (s s' : State) (month_date : CalDate)
      (hmd : ValidDate month_date)
      (hr : runMonthlyBudgetReconciliation s month_date = some s') :
      EngineStep s s'
  | commitForecasts (s : State) (month_date : CalDate) :
      EngineStep s (commitPastAndCurrentForecasts s month_date)
  | genForecasts (s s' : State) (horizon_months : Nat) (from_date : CalDate)
      (hr : generateForecasts s horizon_months from_date = some s') :
      EngineStep s s'

/-- A credit-card account (cut 14, pay 25). -/
def visaAccount : Account := ⟨"Visa", "credit_card", some 14, some 25⟩

/-- A shopping budget paid by credit card. -/
def c2Sub : Subscription :=
  ⟨"budget_shopping", "Shopping", "Shopping", 200, "Visa", ⟨2025, 10, 1⟩, none,
    true, "keep", false⟩

/-- A credit-card allocation: created 2025-10-20, paid 2025-11-25. -/
def c2Alloc : Txn :=
  ⟨1, ⟨2025, 10, 20⟩, ⟨2025, 11, 25⟩, "Shopping", some "Visa", -200,
    some "Shopping", some "budget_shopping", Status.forecast,
    some "budget_shopping"⟩

/-- Store before the edit. -/
def c2State : State := ⟨[c2Alloc], [c2Sub], [visaAccount], [], 2, 0⟩

/-- Store after editing the allocation's amount to 50. -/
def c2Broken : State :=
  ⟨[{ c2Alloc with amount := 50 }], [c2Sub], [visaAccount], [], 2, 0⟩

/-- **C2 counterexample.**  The invariant holds of `c2State`; the engine's
edit operation `process_transaction_update(1, {"amount": 50})` returns
`c2Broken`; and the invariant fails there: the October allocation now has
amount 50 ∉ [−200, 0].  The heal step missed it because the collected pair is
keyed by the row's `date_payed` (November) while the allocation row lives in
October by `date_created`. -/
theorem c2_invariant_not_preserved_by_edit :
    BudgetRangeInvariant c2State ∧
    processTransactionUpdate c2State 1 ⟨none, some 50, none, none, none, none⟩ =
      some c2Broken ∧
    ¬ BudgetRangeInvariant c2Broken := by
  refine ⟨?_, by decide, ?_⟩
  · intro σ hσ hb m t ht
    have hσ' : σ = c2Sub := by simpa [c2State] using hσ
    have hmem := List.mem_of_find?_eq_some ht
    have ht' : t = c2Alloc := by simpa [c2State, getBudgetAllocationForMonth] using hmem
    subst hσ'
    subst ht'
    exact ⟨by decide, by decide⟩
  · intro h
    have h2 := (h c2Sub (by simp [c2Broken]) rfl ⟨2025, 10, 1⟩
      { c2Alloc with amount := 50 } (by decide)).2
    exact absurd h2 (by decide)

/-- Rows produced by `assignIds` are input rows with fresh ids in
`[n, n + length)`. -/
theorem mem_assignIds :
    ∀ (n : Nat) (ts : List Txn) (t' : Txn), t' ∈ assignIds n ts →
      ∃ t ∈ ts, t' = { t with id := t'.id } ∧ n ≤ t'.id := by
  intro n ts
  induction ts generalizing n with
  | nil =>
    intro t' h
    simp [assignIds] at h
  | cons t rest ih =>
    intro t' h
    rcases List.mem_cons.mp h with h | h
    · exact ⟨t, List.mem_cons_self t rest, by rw [h], by rw [h]⟩
    · obtain ⟨u, hu, he, hn⟩ := ih (n + 1) t' h
      exact ⟨u, List.mem_cons_of_mem t hu, he, by omega⟩

/-- Allocation lookup after a batch insert. -/
theorem getAlloc_addTransactions (s : State) (ts : List Txn) (b : String)
    (m : CalDate) :
    getBudgetAllocationForMonth (addTransactions s ts) b m =
      (getBudgetAllocationForMonth s b m).or
        ((assignIds s.nextId ts).find? (allocPred b m)) := by
  unfold getBudgetAllocationForMonth addTransactions
  simp only
  rw [List.find?_append]

/-- Allocation lookup after an amount update, `Option.map` form. -/
theorem getAlloc_updateAmount_map (s : State) (i : Nat) (v : Int) (b : String)
    (m : CalDate) :
    getBudgetAllocationForMonth (updateTransactionAmount s i v) b m =
      (getBudgetAllocationForMonth s b m).map
        (fun t => if t.id == i then { t with amount := v } else t) := by
  unfold getBudgetAllocationForMonth updateTransactionAmount
  simp only
  rw [List.find?_map]
  have hp : (allocPred b m ∘ fun t =>
      if t.id == i then { t with amount := v } else t) = allocPred b m := by
    funext t
    simp only [Function.comp_apply]
    split <;> rfl
  rw [hp]

/-- `find?` only depends on the predicate's values on the list. -/
theorem find?_congr_pred {p q : Txn → Bool} :
    ∀ {l : List Txn}, (∀ x ∈ l, p x = q x) → l.find? p = l.find? q := by
  intro l
  induction l with
  | nil => intro _; rfl
  | cons x xs ih =>
    intro h
    have hx := h x (List.mem_cons_self x xs)
    rw [List.find?_cons, List.find?_cons, ← hx]
    cases hpx : p x
    · exact ih fun y hy => h y (List.mem_cons_of_mem x hy)
    · rfl

/-- Removing only rows the predicate rejects does not change `find?`. -/
theorem find?_filter_imp {p q : Txn → Bool} :
    ∀ {l : List Txn}, (∀ x ∈ l, p x = true → q x = true) →
      (l.filter q).find? p = l.find? p := by
  intro l
  induction l with
  | nil => intro _; rfl
  | cons x xs ih =>
    intro h
    rw [List.filter_cons]
    by_cases hq : q x = true
    · rw [if_pos hq, List.find?_cons, List.find?_cons]
      cases hpx : p x
      · exact ih fun y hy => h y (List.mem_cons_of_mem x hy)
      · rfl
    · have hpx : p x = false := by
        cases hpx : p x
        · rfl
        · exact absurd (h x (List.mem_cons_self x xs) hpx) hq
      rw [if_neg hq, List.find?_cons, hpx]
      exact ih fun y hy => h y (List.mem_cons_of_mem x hy)

/-- With strictly increasing ids, equal ids mean equal rows. -/
theorem eq_of_id_eq :
    ∀ {l : List Txn}, l.Pairwise (fun a b => a.id < b.id) →
      ∀ {a c : Txn}, a ∈ l → c ∈ l → a.id = c.id → a = c := by
  intro l
  induction l with
  | nil =>
    intro _ a c ha
    exact absurd ha (List.not_mem_nil a)
  | cons x xs ih =>
    intro hp a c ha hc hid
    rw [List.pairwise_cons] at hp
    rcases List.mem_cons.mp ha with ha | ha <;>
      rcases List.mem_cons.mp hc with hc | hc
    · rw [ha, hc]
    · exfalso
      have hlt := hp.1 c hc
      rw [ha] at hid
      omega
    · exfalso
      have hlt := hp.1 a ha
      rw [hc] at hid
      omega
    · exact ih hp.2 ha hc hid

/-- With pairwise distinct ids, looking up a member's id finds that member. -/
theorem find?_sub_of_mem :
    ∀ (l : List Subscription) (σ : Subscription), σ ∈ l →
      l.Pairwise (fun a b => a.id ≠ b.id) →
      l.find? (·.id == σ.id) = some σ := by
  intro l
  induction l with
  | nil =>
    intro σ hmem _
    exact absurd hmem (List.not_mem_nil σ)
  | cons τ rest ih =>
    intro σ hmem hnd
    rw [List.pairwise_cons] at hnd
    rcases List.mem_cons.mp hmem with h | h
    · subst h
      rw [List.find?_cons]
      simp
    · have hne : τ.id ≠ σ.id := hnd.1 σ h
      rw [List.find?_cons]
      have hb : (τ.id == σ.id) = false := by simp [hne]
      rw [hb]
      exact ih σ h hnd.2

/-- With distinct subscription ids, looking up a member's id finds that
member. -/
theorem getSubscriptionById_of_mem (s : State) (σ : Subscription)
    (hmem : σ ∈ s.subscriptions)
    (hnd : s.subscriptions.Pairwise (fun a b => a.id ≠ b.id)) :
    getSubscriptionById s σ.id = some σ :=
  find?_sub_of_mem s.subscriptions σ hmem hnd

/-- No month has more than 31 days. -/
theorem daysInMonth_le_31 (y m : Nat) : daysInMonth y m ≤ 31 := by
  unfold daysInMonth
  split
  · split <;> omega
  · split <;> omega

/-- For a valid date `x`, `daysInMonth` of `x`'s month is at most that of any
reference date with the same month index. -/
theorem daysInMonth_le_of_monthIdx_eq (x ref : CalDate)
    (hm1 : 1 ≤ x.month) (hm2 : x.month ≤ 12)
    (h : x.monthIdx = ref.monthIdx) :
    daysInMonth x.year x.month ≤ daysInMonth ref.year ref.month := by
  unfold CalDate.monthIdx at h
  by_cases href : 1 ≤ ref.month ∧ ref.month ≤ 12
  · have hxy : x.month = ref.month ∧ x.year = ref.year := by omega
    rw [hxy.1, hxy.2]
  · have e2 : (ref.month == 2) = false := by
      simp only [beq_eq_false_iff_ne, ne_eq]
      omega
    have e4 : (ref.month == 4) = false := by
      simp only [beq_eq_false_iff_ne, ne_eq]
      omega
    have e6 : (ref.month == 6) = false := by
      simp only [beq_eq_false_iff_ne, ne_eq]
      omega
    have e9 : (ref.month == 9) = false := by
      simp only [beq_eq_false_iff_ne, ne_eq]
      omega
    have e11 : (ref.month == 11) = false := by
      simp only [beq_eq_false_iff_ne, ne_eq]
      omega
    have h31 : daysInMonth ref.year ref.month = 31 := by
      unfold daysInMonth
      rw [e2, e4, e6, e9, e11]
      simp
    rw [h31]
    exact daysInMonth_le_31 x.year x.month

/-- For a valid date `x`, membership in a reference month is exactly equality
of month indices. -/
theorem inMonth_eq_monthIdx {x : CalDate} (hx : ValidDate x) (ref : CalDate) :
    inMonth x ref = (x.monthIdx == ref.monthIdx) := by
  obtain ⟨hm1, hm2, hd1, hd2⟩ := hx
  cases hmi : (x.monthIdx == ref.monthIdx) with
  | true =>
    have heq : x.monthIdx = ref.monthIdx := by simpa using hmi
    have hle : x.day ≤ daysInMonth ref.year ref.month :=
      le_trans hd2 (daysInMonth_le_of_monthIdx_eq x ref hm1 hm2 heq)
    unfold inMonth monthStart monthEnd CalDate.le CalDate.monthIdx at *
    simp only [Bool.and_eq_true, Bool.or_eq_true, decide_eq_true_eq, beq_iff_eq]
    exact ⟨Or.inr ⟨by omega, hd1⟩, Or.inr ⟨by omega, hle⟩⟩
  | false =>
    have hne : x.monthIdx ≠ ref.monthIdx := by simpa using hmi
    cases hIM : inMonth x ref with
    | false => rfl
    | true =>
      exfalso
      unfold inMonth monthStart monthEnd CalDate.le CalDate.monthIdx at hIM
      simp only [Bool.and_eq_true, Bool.or_eq_true, decide_eq_true_eq,
        beq_iff_eq] at hIM
      unfold CalDate.monthIdx at hne
      omega

/-- The allocation predicate forces the row's `origin_id`. -/
theorem allocPred_origin {b : String} {m : CalDate} {t : Txn}
    (h : allocPred b m t = true) : t.origin_id = some b := by
  unfold allocPred at h
  simp only [Bool.and_eq_true, beq_iff_eq] at h
  exact h.1

/-- The allocation predicate forces the row's creation month. -/
theorem allocPred_inMonth {b : String} {m : CalDate} {t : Txn}
    (h : allocPred b m t = true) : inMonth t.date_created m = true := by
  unfold allocPred at h
  simp only [Bool.and_eq_true, beq_iff_eq] at h
  exact h.2

/-- `_recalculate_and_update_budget` preserves the range invariant. -/
theorem recalc_preserves_invariant (s : State) (b : String) (m0 : CalDate)
    (hids : s.transactions.Pairwise (fun a b => a.id < b.id))
    (hnd : s.subscriptions.Pairwise (fun a b => a.id ≠ b.id))
    (hnn : ∀ σ ∈ s.subscriptions, 0 ≤ σ.monthly_amount)
    (hInv : BudgetRangeInvariant s) :
    BudgetRangeInvariant (recalcAndUpdateBudget s b m0) := by
  unfold recalcAndUpdateBudget
  cases hsub : getSubscriptionById s b with
  | none =>
    simp only [hsub]
    exact hInv
  | some subB =>
    simp only [hsub]
    cases halloc : getBudgetAllocationForMonth s b m0 with
    | none =>
      simp only [halloc]
      exact hInv
    | some R =>
      simp only [halloc]
      intro σ hσ hb m t ht
      rw [getAlloc_updateAmount_map] at ht
      cases hf : getBudgetAllocationForMonth s σ.id m with
      | none =>
        rw [hf] at ht
        exact absurd ht (by simp)
      | some f =>
        rw [hf] at ht
        simp only [Option.map_some'] at ht
        have ht' := Option.some.inj ht
        by_cases hid : (f.id == R.id) = true
        · have hfR : f = R :=
            eq_of_id_eq hids (List.mem_of_find?_eq_some hf)
              (List.mem_of_find?_eq_some halloc) (by simpa using hid)
          have hfor : f.origin_id = some σ.id :=
            allocPred_origin (List.find?_some hf)
          have hRor : R.origin_id = some b :=
            allocPred_origin (List.find?_some halloc)
          have hbid : σ.id = b := by
            rw [hfR] at hfor
            rw [hfor] at hRor
            exact Option.some.inj hRor
          have hσsub : getSubscriptionById s σ.id = some σ :=
            getSubscriptionById_of_mem s σ hσ hnd
          have hσB : σ = subB := by
            rw [hbid] at hσsub
            rw [hsub] at hσsub
            exact (Option.some.inj hσsub).symm
          have hS : (0 : Int) ≤ getTotalSpentForBudgetInMonth s b m0 :=
            abs_nonneg _
          have hA : (0 : Int) ≤ subB.monthly_amount := by
            rw [← hσB]
            exact hnn σ hσ
          have h1 := min_le_right (getTotalSpentForBudgetInMonth s b m0)
            subB.monthly_amount
          have h2 := le_min hS hA
          rw [← ht', if_pos hid, hσB]
          show -subB.monthly_amount ≤ (-subB.monthly_amount +
              min (getTotalSpentForBudgetInMonth s b m0) subB.monthly_amount) ∧
            (-subB.monthly_amount +
              min (getTotalSpentForBudgetInMonth s b m0) subB.monthly_amount) ≤ 0
          constructor <;> omega
        · rw [← ht', if_neg hid]
          exact hInv σ hσ hb m f hf

/-- Allocation lookup after the forecast commit: the same row is found, with
only its status possibly rewritten. -/
theorem getAlloc_commitForecasts (s : State) (m0 : CalDate) (b : String)
    (m : CalDate) :
    getBudgetAllocationForMonth (commitPastAndCurrentForecasts s m0) b m =
      (getBudgetAllocationForMonth s b m).map
        (fun t => if t.status == Status.forecast &&
            CalDate.le t.date_payed (monthEnd (monthStart m0)) then
          { t with status := Status.committed } else t) := by
  unfold getBudgetAllocationForMonth commitPastAndCurrentForecasts
  simp only
  rw [List.find?_map]
  have hp : (allocPred b m ∘ fun t =>
      if t.status == Status.forecast &&
          CalDate.le t.date_payed (monthEnd (monthStart m0)) then
        { t with status := Status.committed } else t) = allocPred b m := by
    funext t
    simp only [Function.comp_apply]
    split <;> rfl
  rw [hp]

/-- The rollover's forecast commit preserves the range invariant. -/
theorem commit_preserves_invariant (s : State) (m0 : CalDate)
    (hInv : BudgetRangeInvariant s) :
    BudgetRangeInvariant (commitPastAndCurrentForecasts s m0) := by
  intro σ hσ hb m t ht
  rw [getAlloc_commitForecasts] at ht
  cases hf : getBudgetAllocationForMonth s σ.id m with
  | none =>
    rw [hf] at ht
    exact absurd ht (by simp)
  | some f =>
    rw [hf] at ht
    simp only [Option.map_some'] at ht
    have ht' := Option.some.inj ht
    have hamount : t.amount = f.amount := by
      rw [← ht']
      split <;> rfl
    have hbound := hInv σ hσ hb m f hf
    omega

/-- `assignIds` numbers its rows strictly increasingly. -/
theorem assignIds_pairwise :
    ∀ (n : Nat) (ts : List Txn),
      (assignIds n ts).Pairwise (fun a b => a.id < b.id) := by
  intro n ts
  induction ts generalizing n with
  | nil => simp [assignIds]
  | cons t rest ih =>
    unfold assignIds
    refine List.Pairwise.cons ?_ (ih (n + 1))
    intro u hu
    obtain ⟨_, _, _, hn⟩ := mem_assignIds (n + 1) rest u hu
    simpa using by omega

/-- `assignIds` ids stay below `n + length`. -/
theorem assignIds_id_lt :
    ∀ (n : Nat) (ts : List Txn) (t' : Txn), t' ∈ assignIds n ts →
      t'.id < n + ts.length := by
  intro n ts
  induction ts generalizing n with
  | nil =>
    intro t' h
    simp [assignIds] at h
  | cons t rest ih =>
    intro t' h
    rcases List.mem_cons.mp h with h | h
    · rw [h]
      simp
    · have := ih (n + 1) t' h
      simp only [List.length_cons]
      omega

/-- Ids stay strictly increasing across an insert. -/
theorem idsInc_addTransactions (s : State) (ts : List Txn)
    (hids : s.transactions.Pairwise (fun a b => a.id < b.id))
    (hlt : ∀ t ∈ s.transactions, t.id < s.nextId) :
    (addTransactions s ts).transactions.Pairwise (fun a b => a.id < b.id) := by
  unfold addTransactions
  simp only
  rw [List.pairwise_append]
  refine ⟨hids, assignIds_pairwise s.nextId ts, ?_⟩
  intro a ha b hb
  obtain ⟨_, _, _, hn⟩ := mem_assignIds s.nextId ts b hb
  have := hlt a ha
  omega

/-- Ids stay below the counter across an insert. -/
theorem idsLt_addTransactions (s : State) (ts : List Txn)
    (hlt : ∀ t ∈ s.transactions, t.id < s.nextId) :
    ∀ t ∈ (addTransactions s ts).transactions,
      t.id < (addTransactions s ts).nextId := by
  unfold addTransactions
  simp only
  intro t ht
  rcases List.mem_append.mp ht with h | h
  · have := hlt t h
    omega
  · have := assignIds_id_lt s.nextId ts t h
    omega

/-- Inserting rows that respect the budget bounds preserves the invariant. -/
theorem inv_addTransactions (s : State) (ts : List Txn)
    (hInv : BudgetRangeInvariant s)
    (hr : ∀ r ∈ ts, ∀ σ ∈ s.subscriptions, σ.is_budget = true →
      r.origin_id = some σ.id → -σ.monthly_amount ≤ r.amount ∧ r.amount ≤ 0) :
    BudgetRangeInvariant (addTransactions s ts) := by
  intro σ hσ hb m t ht
  rw [getAlloc_addTransactions] at ht
  cases hf : getBudgetAllocationForMonth s σ.id m with
  | some f =>
    rw [hf] at ht
    have ht2 : some f = some t := ht
    exact Option.some.inj ht2 ▸ hInv σ hσ hb m f hf
  | none =>
    rw [hf] at ht
    have ht2 : (assignIds s.nextId ts).find? (allocPred σ.id m) = some t := ht
    have hmem := List.mem_of_find?_eq_some ht2
    have hpred := List.find?_some ht2
    obtain ⟨r, hrmem, hre, _⟩ := mem_assignIds _ _ _ hmem
    have hor : r.origin_id = some σ.id := by
      have : t.origin_id = r.origin_id := by rw [hre]
      rw [← this]
      exact allocPred_origin hpred
    have hbnd := hr r hrmem σ hσ hb hor
    have hamt : t.amount = r.amount := by rw [hre]
    omega

/-- Field values of a successfully built single transaction. -/
theorem createSingle_spec {de : String} {am : Int} {cat bud : Option String}
    {acc : Account} {d : CalDate} {g : Nat} {inc pen pla : Bool} {t : Txn}
    (h : createSingleTransaction de am cat bud acc d g inc pen pla = some t) :
    t.amount = (if inc then |am| else -|am|) ∧ t.budget = bud ∧
      t.origin_id = none ∧ t.date_created = d := by
  unfold createSingleTransaction at h
  obtain ⟨payed, hpd, ht⟩ := Option.map_eq_some'.mp h
  rw [← ht]
  exact ⟨rfl, rfl, rfl, rfl⟩

/-- The `if allocation:` tail of `_apply_expense_to_budget` preserves the
range invariant. -/
theorem applyAllocStep_preserves (s : State) (e A : Txn) (b : String)
    (hids : s.transactions.Pairwise (fun a b => a.id < b.id))
    (hnd : s.subscriptions.Pairwise (fun a b => a.id ≠ b.id))
    (hInv : BudgetRangeInvariant s)
    (halloc : getBudgetAllocationForMonth s b e.date_payed = some A) :
    BudgetRangeInvariant (applyAllocStep s e A) := by
  unfold applyAllocStep
  intro σ hσ hb m t ht
  rw [getAlloc_updateAmount_map] at ht
  cases hf : getBudgetAllocationForMonth s σ.id m with
  | none =>
    rw [hf] at ht
    exact absurd ht (by simp)
  | some f =>
    rw [hf] at ht
    simp only [Option.map_some'] at ht
    have ht' := Option.some.inj ht
    by_cases hid : (f.id == A.id) = true
    · have hfA : f = A :=
        eq_of_id_eq hids (List.mem_of_find?_eq_some hf)
          (List.mem_of_find?_eq_some halloc) (by simpa using hid)
      have hfor : f.origin_id = some σ.id := allocPred_origin (List.find?_some hf)
      have hAor : A.origin_id = some b := allocPred_origin (List.find?_some halloc)
      have hbid : σ.id = b := by
        rw [hfA] at hfor
        rw [hfor] at hAor
        exact Option.some.inj hAor
      have hAbound : -σ.monthly_amount ≤ A.amount ∧ A.amount ≤ 0 := by
        refine hInv σ hσ hb e.date_payed A ?_
        rw [hbid]
        exact halloc
      have habsA : |A.amount| = -A.amount := abs_of_nonpos hAbound.2
      have habse : (0 : Int) ≤ |e.amount| := abs_nonneg _
      have hmin1 : min (|e.amount|) (|A.amount|) ≤ |A.amount| := min_le_right _ _
      have hmin2 : (0 : Int) ≤ min (|e.amount|) (|A.amount|) :=
        le_min habse (abs_nonneg _)
      rw [← ht', if_pos hid]
      show -σ.monthly_amount ≤ (A.amount + min (|e.amount|) (|A.amount|)) ∧
        (A.amount + min (|e.amount|) (|A.amount|)) ≤ 0
      omega
    · rw [← ht', if_neg hid]
      exact hInv σ hσ hb m f hf

/-- `_apply_expense_to_budget` preserves the range invariant for an ordinary
expense row (one with `origin_id = null`). -/
theorem applyExpense_preserves_invariant (s : State) (e : Txn) (s' : State)
    (hids : s.transactions.Pairwise (fun a b => a.id < b.id))
    (hidlt : ∀ t ∈ s.transactions, t.id < s.nextId)
    (hnd : s.subscriptions.Pairwise (fun a b => a.id ≠ b.id))
    (hnn : ∀ σ ∈ s.subscriptions, 0 ≤ σ.monthly_amount)
    (hInv : BudgetRangeInvariant s)
    (happ : applyExpenseToBudget s e = some s') :
    BudgetRangeInvariant s' := by
  unfold applyExpenseToBudget at happ
  cases hbud : e.budget with
  | none =>
    rw [hbud] at happ
    simp only at happ
    exact Option.some.inj happ ▸ hInv
  | some b =>
    rw [hbud] at happ
    simp only at happ
    cases halloc : getBudgetAllocationForMonth s b e.date_payed with
    | some A =>
      rw [halloc] at happ
      simp only at happ
      cases Option.some.inj happ
      exact applyAllocStep_preserves s e A b hids hnd hInv halloc
    | none =>
      rw [halloc] at happ
      simp only at happ
      cases hsub : getSubscriptionById s b with
      | none =>
        rw [hsub] at happ
        simp only at happ
        exact Option.some.inj happ ▸ hInv
      | some bsub =>
        rw [hsub] at happ
        simp only at happ
        cases hbacc : getAccountByName s bsub.payment_account_id with
        | none =>
          rw [hbacc] at happ
          exact Option.noConfusion happ
        | some bacc =>
          rw [hbacc] at happ
          simp only at happ
          cases hcr : createSingleTransaction bsub.name bsub.monthly_amount
              (some bsub.category) (some b) bacc (monthStart e.date_payed) 0
              false false false with
          | none =>
            rw [hcr] at happ
            exact Option.noConfusion happ
          | some tr =>
            rw [hcr] at happ
            simp only at happ
            have hspec := createSingle_spec hcr
            have hInv2 : BudgetRangeInvariant (addTransactions s
                [{ tr with status := Status.forecast, origin_id := some b }]) := by
              refine inv_addTransactions s _ hInv ?_
              intro r hrm σ hσ hbσ hor
              rw [List.mem_singleton] at hrm
              have hbσid : b = σ.id := by
                rw [hrm] at hor
                simpa using hor
              have hσfind : getSubscriptionById s σ.id = some σ :=
                getSubscriptionById_of_mem s σ hσ hnd
              have hσb : σ = bsub := by
                rw [← hbσid] at hσfind
                rw [hsub] at hσfind
                exact (Option.some.inj hσfind).symm
              have hAn : (0 : Int) ≤ σ.monthly_amount := hnn σ hσ
              have hram : r.amount = -|bsub.monthly_amount| := by
                rw [hrm]
                show tr.amount = -|bsub.monthly_amount|
                rw [hspec.1]
                rfl
              rw [hram, hσb]
              have habs : |bsub.monthly_amount| = bsub.monthly_amount :=
                abs_of_nonneg (by rw [← hσb]; exact hAn)
              rw [habs]
              have hAn2 : (0 : Int) ≤ bsub.monthly_amount := by
                rw [← hσb]
                exact hAn
              omega
            set s2 := addTransactions s
              [{ tr with status := Status.forecast, origin_id := some b }] with hs2
            cases hre : getBudgetAllocationForMonth s2 b e.date_payed with
            | none =>
              rw [hre] at happ
              simp only at happ
              exact Option.some.inj happ ▸ hInv2
            | some A2 =>
              rw [hre] at happ
              simp only at happ
              cases Option.some.inj happ
              refine applyAllocStep_preserves s2 e A2 b ?_ ?_ hInv2 hre
              · exact idsInc_addTransactions s _ hids hidlt
              · exact hnd

/-- `process_transaction_request` on a Simple request preserves the range
invariant. -/
theorem addSimple_preserves_invariant (s s' : State) (de : String) (am : Int)
    (an : String) (cat bud : Option String) (g : Nat) (inc pen pla : Bool)
    (d : CalDate)
    (hids : s.transactions.Pairwise (fun a b => a.id < b.id))
    (hidlt : ∀ t ∈ s.transactions, t.id < s.nextId)
    (hnd : s.subscriptions.Pairwise (fun a b => a.id ≠ b.id))
    (hnn : ∀ σ ∈ s.subscriptions, 0 ≤ σ.monthly_amount)
    (hInv : BudgetRangeInvariant s)
    (hr : processTransactionRequest s
      (Request.simple de am an cat bud g inc pen pla) d = some s') :
    BudgetRangeInvariant s' := by
  unfold processTransactionRequest at hr
  dsimp only at hr
  cases hacc : getAccountByName s an with
  | none =>
    rw [hacc] at hr
    exact Option.noConfusion hr
  | some acc =>
    rw [hacc] at hr
    simp only at hr
    cases hcr : createSingleTransaction de am cat bud acc d g false false false with
    | none =>
      rw [hcr] at hr
      exact Option.noConfusion hr
    | some e =>
      rw [hcr] at hr
      simp only [Option.map_some'] at hr
      have hr2 : applyAllExpenses
          (addTransactions { s with nextOrigin := s.nextOrigin + 1 } [e]) [e] =
          some s' := hr
      set s1 := addTransactions { s with nextOrigin := s.nextOrigin + 1 } [e]
        with hs1
      unfold applyAllExpenses at hr2
      cases happ : applyExpenseToBudget s1 e with
      | none =>
        rw [happ] at hr2
        exact Option.noConfusion hr2
      | some s2 =>
        rw [happ] at hr2
        have hs2 : s2 = s' := Option.some.inj hr2
        subst hs2
        have hspec := createSingle_spec hcr
        refine applyExpense_preserves_invariant s1 e s2 ?_ ?_ hnd hnn ?_ happ
        · exact idsInc_addTransactions _ _ hids hidlt
        · exact idsLt_addTransactions _ _ hidlt
        · refine inv_addTransactions _ [e] hInv ?_
          intro r hrm σ hσ hb hor
          rw [List.mem_singleton] at hrm
          rw [hrm, hspec.2.2.1] at hor
          exact Option.noConfusion hor

/-- The allocation predicate only depends on the reference month through its
month index, on rows with valid dates. -/
theorem allocPred_congr_month {b : String} {m1 m2 : CalDate}
    (hmi : m1.monthIdx = m2.monthIdx) {x : Txn}
    (hx : ValidDate x.date_created) :
    allocPred b m1 x = allocPred b m2 x := by
  unfold allocPred
  rw [inMonth_eq_monthIdx hx m1, inMonth_eq_monthIdx hx m2, hmi]

/-- `process_transaction_deletion` (delete + heal) preserves the range
invariant. -/
theorem delete_preserves_invariant (s : State) (tid : Nat)
    (hids : s.transactions.Pairwise (fun a b => a.id < b.id))
    (hnd : s.subscriptions.Pairwise (fun a b => a.id ≠ b.id))
    (hnn : ∀ σ ∈ s.subscriptions, 0 ≤ σ.monthly_amount)
    (hvd : ∀ t ∈ s.transactions, ValidDate t.date_created ∧ ValidDate t.date_payed)
    (how : ∀ t ∈ s.transactions, ∀ σ ∈ s.subscriptions, σ.is_budget = true →
      t.origin_id = some σ.id →
      t.budget = some σ.id ∧ t.date_payed.monthIdx = t.date_created.monthIdx)
    (hInv : BudgetRangeInvariant s) :
    BudgetRangeInvariant (processTransactionDeletion s tid) := by
  unfold processTransactionDeletion
  cases hget : getTransactionById s tid with
  | none =>
    simp only [hget]
    exact hInv
  | some T =>
    simp only [hget]
    have hTmem : T ∈ s.transactions := List.mem_of_find?_eq_some hget
    have hTid : T.id = tid := by
      have := List.find?_some hget
      simpa using this
    have hids1 : (deleteTransaction s tid).transactions.Pairwise
        (fun a b => a.id < b.id) :=
      List.Pairwise.sublist (List.filter_sublist _) hids
    -- find? over the deleted table agrees with the original whenever T does
    -- not match the predicate
    have hkeep : ∀ (b : String) (m : CalDate), allocPred b m T = false →
        getBudgetAllocationForMonth (deleteTransaction s tid) b m =
        getBudgetAllocationForMonth s b m := by
      intro b m hTnm
      unfold getBudgetAllocationForMonth deleteTransaction
      simp only
      apply find?_filter_imp
      intro x hx hpx
      by_cases hxid : x.id = tid
      · exfalso
        have hxT : x = T := eq_of_id_eq hids hx hTmem (hxid.trans hTid.symm)
        rw [hxT, hTnm] at hpx
        exact Bool.noConfusion hpx
      · simp [hxid]
    cases hbud : T.budget with
    | none =>
      simp only [hbud]
      intro σ hσ hb m t ht
      by_cases hTmatch : allocPred σ.id m T = true
      · exfalso
        have hTor := allocPred_origin hTmatch
        have := (how T hTmem σ hσ hb hTor).1
        rw [hbud] at this
        exact Option.noConfusion this
      · rw [hkeep σ.id m (Bool.eq_false_iff.mpr hTmatch)] at ht
        exact hInv σ hσ hb m t ht
    | some bid =>
      simp only [hbud]
      set s1 := deleteTransaction s tid with hs1
      unfold recalcAndUpdateBudget
      cases hsubB : getSubscriptionById s1 bid with
      | none =>
        simp only [hsubB]
        intro σ hσ hb m t ht
        by_cases hTmatch : allocPred σ.id m T = true
        · exfalso
          have hTor := allocPred_origin hTmatch
          have hTb := (how T hTmem σ hσ hb hTor).1
          rw [hbud] at hTb
          have hbσ : bid = σ.id := Option.some.inj hTb
          have : getSubscriptionById s1 bid = some σ := by
            rw [hbσ]
            exact getSubscriptionById_of_mem s1 σ hσ hnd
          rw [hsubB] at this
          exact Option.noConfusion this
        · rw [hkeep σ.id m (Bool.eq_false_iff.mpr hTmatch)] at ht
          exact hInv σ hσ hb m t ht
      | some subB =>
        simp only [hsubB]
        cases halloc : getBudgetAllocationForMonth s1 bid T.date_payed with
        | none =>
          simp only [halloc]
          intro σ hσ hb m t ht
          by_cases hTmatch : allocPred σ.id m T = true
          · exfalso
            have hTor := allocPred_origin hTmatch
            have hwf := how T hTmem σ hσ hb hTor
            have hbσ : bid = σ.id := by
              have := hwf.1
              rw [hbud] at this
              exact Option.some.inj this
            have hmim : m.monthIdx = T.date_payed.monthIdx := by
              have hTin := allocPred_inMonth hTmatch
              rw [inMonth_eq_monthIdx (hvd T hTmem).1 m] at hTin
              have h1 : T.date_created.monthIdx = m.monthIdx := by simpa using hTin
              omega
            have hpe : getBudgetAllocationForMonth s1 σ.id m =
                getBudgetAllocationForMonth s1 bid T.date_payed := by
              unfold getBudgetAllocationForMonth
              rw [hbσ]
              apply find?_congr_pred
              intro x hx
              have hxs : x ∈ s.transactions :=
                List.mem_of_mem_filter hx
              exact allocPred_congr_month hmim (hvd x hxs).1
            rw [hpe, halloc] at ht
            exact Option.noConfusion ht
          · rw [hkeep σ.id m (Bool.eq_false_iff.mpr hTmatch)] at ht
            exact hInv σ hσ hb m t ht
        | some R =>
          simp only [halloc]
          intro σ hσ hb m t ht
          rw [getAlloc_updateAmount_map] at ht
          by_cases hTmatch : allocPred σ.id m T = true
          · -- the deleted row owned this pair: the heal hit exactly this pair
            have hTor := allocPred_origin hTmatch
            have hwf := how T hTmem σ hσ hb hTor
            have hbσ : bid = σ.id := by
              have := hwf.1
              rw [hbud] at this
              exact Option.some.inj this
            have hmim : m.monthIdx = T.date_payed.monthIdx := by
              have hTin := allocPred_inMonth hTmatch
              rw [inMonth_eq_monthIdx (hvd T hTmem).1 m] at hTin
              have h1 : T.date_created.monthIdx = m.monthIdx := by simpa using hTin
              omega
            have hpe : getBudgetAllocationForMonth s1 σ.id m =
                getBudgetAllocationForMonth s1 bid T.date_payed := by
              unfold getBudgetAllocationForMonth
              rw [hbσ]
              apply find?_congr_pred
              intro x hx
              have hxs : x ∈ s.transactions := List.mem_of_mem_filter hx
              exact allocPred_congr_month hmim (hvd x hxs).1
            rw [hpe, halloc] at ht
            simp only [Option.map_some'] at ht
            have ht' := Option.some.inj ht
            have hRR : (R.id == R.id) = true := by simp
            rw [← ht', hRR] at *
            have hσsubB : σ = subB := by
              have h1 : getSubscriptionById s1 σ.id = some σ :=
                getSubscriptionById_of_mem s1 σ hσ hnd
            
              rw [← hbσ] at h1
              rw [hsubB] at h1
              exact (Option.some.inj h1).symm
            have hS : (0 : Int) ≤ getTotalSpentForBudgetInMonth s1 bid T.date_payed :=
              abs_nonneg _
            have hA : (0 : Int) ≤ subB.monthly_amount := by
              rw [← hσsubB]
              exact hnn σ hσ
            have h1 := min_le_right
              (getTotalSpentForBudgetInMonth s1 bid T.date_payed) subB.monthly_amount
            have h2 := le_min hS hA
            rw [if_pos rfl]
            rw [hσsubB]
            show -subB.monthly_amount ≤ (-subB.monthly_amount +
                min (getTotalSpentForBudgetInMonth s1 bid T.date_payed)
                  subB.monthly_amount) ∧
              (-subB.monthly_amount +
                min (getTotalSpentForBudgetInMonth s1 bid T.date_payed)
                  subB.monthly_amount) ≤ 0
            constructor <;> omega
          · -- the deleted row did not own this pair: the pre-state row survives
            rw [hkeep σ.id m (Bool.eq_false_iff.mpr hTmatch)] at ht
            cases hf : getBudgetAllocationForMonth s σ.id m with
            | none =>
              rw [hf] at ht
              exact absurd ht (by simp)
            | some f =>
              rw [hf] at ht
              simp only [Option.map_some'] at ht
              have ht' := Option.some.inj ht
              by_cases hid : (f.id == R.id) = true
              · have hRmem : R ∈ s.transactions :=
                  List.mem_of_mem_filter (List.mem_of_find?_eq_some halloc)
                have hfR : f = R :=
                  eq_of_id_eq hids (List.mem_of_find?_eq_some hf) hRmem
                    (by simpa using hid)
                have hfor : f.origin_id = some σ.id :=
                  allocPred_origin (List.find?_some hf)
                have hRor : R.origin_id = some bid :=
                  allocPred_origin (List.find?_some halloc)
                have hbσ : σ.id = bid := by
                  rw [hfR] at hfor
                  rw [hfor] at hRor
                  exact Option.some.inj hRor
                have hσsubB : σ = subB := by
                  have h1 : getSubscriptionById s1 σ.id = some σ :=
                    getSubscriptionById_of_mem s1 σ hσ hnd
                  rw [hbσ, hsubB] at h1
                  exact (Option.some.inj h1).symm
                have hS : (0 : Int) ≤
                    getTotalSpentForBudgetInMonth s1 bid T.date_payed :=
                  abs_nonneg _
                have hA : (0 : Int) ≤ subB.monthly_amount := by
                  rw [← hσsubB]
                  exact hnn σ hσ
                have h1 := min_le_right
                  (getTotalSpentForBudgetInMonth s1 bid T.date_payed)
                  subB.monthly_amount
                have h2 := le_min hS hA
                rw [← ht', if_pos hid, hσsubB]
                show -subB.monthly_amount ≤ (-subB.monthly_amount +
                    min (getTotalSpentForBudgetInMonth s1 bid T.date_payed)
                      subB.monthly_amount) ∧
                  (-subB.monthly_amount +
                    min (getTotalSpentForBudgetInMonth s1 bid T.date_payed)
                      subB.monthly_amount) ≤ 0
                constructor <;> omega
              · rw [← ht', if_neg hid]
                exact hInv σ hσ hb m f hf

/-- Amount updates keep the table's ids increasing. -/
theorem idsInc_updateAmount (s : State) (i : Nat) (v : Int)
    (h : s.transactions.Pairwise (fun a b => a.id < b.id)) :
    (updateTransactionAmount s i v).transactions.Pairwise
      (fun a b => a.id < b.id) := by
  unfold updateTransactionAmount
  simp only
  rw [List.pairwise_map]
  refine h.imp ?_
  intro a b hab
  show (if a.id == i then { a with amount := v } else a).id <
    (if b.id == i then { b with amount := v } else b).id
  have h1 : (if a.id == i then { a with amount := v } else a).id = a.id := by
    split <;> rfl
  have h2 : (if b.id == i then { b with amount := v } else b).id = b.id := by
    split <;> rfl
  rw [h1, h2]
  exact hab

/-- Amount updates keep all ids below the counter. -/
theorem idsLt_updateAmount (s : State) (i : Nat) (v : Int)
    (h : ∀ t ∈ s.transactions, t.id < s.nextId) :
    ∀ t ∈ (updateTransactionAmount s i v).transactions, t.id < s.nextId := by
  intro t ht
  unfold updateTransactionAmount at ht
  simp only at ht
  obtain ⟨u, hu, he⟩ := List.mem_map.mp ht
  have hid : t.id = u.id := by
    rw [← he]
    split <;> rfl
  rw [hid]
  exact h u hu

/-- Amount updates keep all row dates valid. -/
theorem validDates_updateAmount (s : State) (i : Nat) (v : Int)
    (h : ∀ t ∈ s.transactions, ValidDate t.date_created ∧ ValidDate t.date_payed) :
    ∀ t ∈ (updateTransactionAmount s i v).transactions,
      ValidDate t.date_created ∧ ValidDate t.date_payed := by
  intro t ht
  unfold updateTransactionAmount at ht
  simp only at ht
  obtain ⟨u, hu, he⟩ := List.mem_map.mp ht
  have hc : t.date_created = u.date_created := by
    rw [← he]
    split <;> rfl
  have hp : t.date_payed = u.date_payed := by
    rw [← he]
    split <;> rfl
  rw [hc, hp]
  exact h u hu

/-- Inserting rows with valid dates keeps all row dates valid. -/
theorem validDates_addTransactions (s : State) (ts : List Txn)
    (h : ∀ t ∈ s.transactions, ValidDate t.date_created ∧ ValidDate t.date_payed)
    (hts : ∀ t ∈ ts, ValidDate t.date_created ∧ ValidDate t.date_payed) :
    ∀ t ∈ (addTransactions s ts).transactions,
      ValidDate t.date_created ∧ ValidDate t.date_payed := by
  intro t ht
  unfold addTransactions at ht
  simp only at ht
  rcases List.mem_append.mp ht with ht | ht
  · exact h t ht
  · obtain ⟨u, hu, he, _⟩ := mem_assignIds _ _ _ ht
    have hc : t.date_created = u.date_created := by rw [he]
    have hp : t.date_payed = u.date_payed := by rw [he]
    rw [hc, hp]
    exact hts u hu

/-- The body of `run_monthly_budget_reconciliation`'s loop preserves the
range invariant: the appended Budget Release row is never the first match of
any `(budget, month)` pair because the allocation it releases precedes it in
rowid order, and the zeroed allocation has amount `0 ∈ [-A, 0]`. -/
theorem reconcileLoop_preserves (md : CalDate) (hmd : ValidDate md) :
    ∀ (subs : List Subscription) (s s' : State),
      s.transactions.Pairwise (fun a b => a.id < b.id) →
      (∀ t ∈ s.transactions, t.id < s.nextId) →
      s.subscriptions.Pairwise (fun a b => a.id ≠ b.id) →
      (∀ σ ∈ s.subscriptions, 0 ≤ σ.monthly_amount) →
      (∀ t ∈ s.transactions, ValidDate t.date_created ∧ ValidDate t.date_payed) →
      BudgetRangeInvariant s →
      reconcileLoop s md subs = some s' →
      BudgetRangeInvariant s' := by
  intro subs
  induction subs with
  | nil =>
    intro s s' _ _ _ _ _ hInv hr
    exact Option.some.inj hr ▸ hInv
  | cons bs rest ih =>
    intro s s' hids hidlt hnd hnn hvd hInv hr
    unfold reconcileLoop at hr
    cases halloc : getBudgetAllocationForMonth s bs.id md with
    | none =>
      rw [halloc] at hr
      exact ih s s' hids hidlt hnd hnn hvd hInv hr
    | some A =>
      rw [halloc] at hr
      simp only at hr
      by_cases hcond :
          (A.amount < 0 && bs.underspend_behavior == "return") = true
      · rw [if_pos hcond] at hr
        cases hacc : getAccountByName s bs.payment_account_id with
        | none =>
          rw [hacc] at hr
          exact Option.noConfusion hr
        | some account =>
          rw [hacc] at hr
          simp only at hr
          have hAmem : A ∈ s.transactions := List.mem_of_find?_eq_some halloc
          have hpA : allocPred bs.id md A = true := List.find?_some halloc
          set release := createBudgetReleaseTransaction bs.id bs.name
            |A.amount| account md with hrel
          set s1 := addTransactions s [release] with hs1
          set s2 := updateTransactionAmount s1 A.id 0 with hs2
          have hids1 : s1.transactions.Pairwise (fun a b => a.id < b.id) :=
            idsInc_addTransactions s [release] hids hidlt
          have hidlt1 : ∀ t ∈ s1.transactions, t.id < s1.nextId :=
            idsLt_addTransactions s [release] hidlt
          have hvd1 : ∀ t ∈ s1.transactions,
              ValidDate t.date_created ∧ ValidDate t.date_payed := by
            refine validDates_addTransactions s [release] hvd ?_
            intro u hu
            rw [List.mem_singleton] at hu
            rw [hu]
            exact ⟨hmd, hmd⟩
          refine ih s2 s' ?_ ?_ hnd hnn ?_ ?_ hr
          · exact idsInc_updateAmount s1 A.id 0 hids1
          · exact idsLt_updateAmount s1 A.id 0 hidlt1
          · exact validDates_updateAmount s1 A.id 0 hvd1
          · -- the invariant holds of s2
            intro σ hσ hb m t ht
            rw [hs2, getAlloc_updateAmount_map, hs1, getAlloc_addTransactions]
              at ht
            cases hf : getBudgetAllocationForMonth s σ.id m with
            | some f =>
              rw [hf] at ht
              have ht2 : some (if f.id == A.id then { f with amount := 0 }
                  else f) = some t := ht
              have ht' := Option.some.inj ht2
              by_cases hidf : (f.id == A.id) = true
              · rw [if_pos hidf] at ht'
                rw [← ht']
                refine ⟨?_, le_refl 0⟩
                show -σ.monthly_amount ≤ (0 : Int)
                have := hnn σ hσ
                omega
              · rw [if_neg hidf] at ht'
                rw [← ht']
                exact hInv σ hσ hb m f hf
            | none =>
              rw [hf] at ht
              -- the first match would have to be the appended release row,
              -- but then the original allocation A matches too, earlier
              exfalso
              have ht2 : (((assignIds s.nextId [release]).find?
                  (allocPred σ.id m)).map
                  (fun u => if u.id == A.id then { u with amount := 0 } else u))
                  = some t := ht
              cases hpx : allocPred σ.id m { release with id := s.nextId } with
              | false =>
                have hnone : (assignIds s.nextId [release]).find?
                    (allocPred σ.id m) = none := by
                  show List.find? (allocPred σ.id m)
                    [{ release with id := s.nextId }] = none
                  rw [List.find?_cons, hpx]
                  rfl
                rw [hnone] at ht2
                exact Option.noConfusion ht2
              | true =>
                unfold allocPred at hpx
                simp only [Bool.and_eq_true, beq_iff_eq] at hpx
                have horel : ({ release with id := s.nextId } : Txn).origin_id
                    = some bs.id := rfl
                have hcrel : ({ release with id := s.nextId } : Txn).date_created
                    = md := rfl
                rw [horel] at hpx
                rw [hcrel] at hpx
                have hbsσ : bs.id = σ.id := Option.some.inj hpx.1
                have hmdm : md.monthIdx = m.monthIdx := by
                  have := hpx.2
                  rw [inMonth_eq_monthIdx hmd m] at this
                  simpa using this
                -- A matches the pair (σ.id, m) and sits in s.transactions
                have hApred : allocPred σ.id m A = true := by
                  unfold allocPred
                  unfold allocPred at hpA
                  simp only [Bool.and_eq_true, beq_iff_eq] at hpA ⊢
                  refine ⟨by rw [hpA.1, hbsσ], ?_⟩
                  have hAc : ValidDate A.date_created := (hvd A hAmem).1
                  rw [inMonth_eq_monthIdx hAc m]
                  have h2 := hpA.2
                  rw [inMonth_eq_monthIdx hAc md] at h2
                  have h3 : A.date_created.monthIdx = md.monthIdx := by
                    simpa using h2
                  simp [h3, hmdm]
                have := List.find?_eq_none.mp hf A hAmem
                exact this hApred
      · rw [if_neg hcond] at hr
        exact ih s s' hids hidlt hnd hnn hvd hInv hr

/-- `run_monthly_budget_reconciliation` preserves the range invariant. -/
theorem reconcile_preserves_invariant (s s' : State) (md : CalDate)
    (hmd : ValidDate md)
    (hids : s.transactions.Pairwise (fun a b => a.id < b.id))
    (hidlt : ∀ t ∈ s.transactions, t.id < s.nextId)
    (hnd : s.subscriptions.Pairwise (fun a b => a.id ≠ b.id))
    (hnn : ∀ σ ∈ s.subscriptions, 0 ≤ σ.monthly_amount)
    (hvd : ∀ t ∈ s.transactions, ValidDate t.date_created ∧ ValidDate t.date_payed)
    (hInv : BudgetRangeInvariant s)
    (hr : runMonthlyBudgetReconciliation s md = some s') :
    BudgetRangeInvariant s' := by
  unfold runMonthlyBudgetReconciliation at hr
  exact reconcileLoop_preserves md hmd _ s s' hids hidlt hnd hnn hvd hInv hr

/-- Two subscriptions of a duplicate-free table with the same id are equal. -/
theorem sub_eq_of_id_eq {l : List Subscription}
    (hnd : l.Pairwise (fun a b => a.id ≠ b.id))
    {σ τ : Subscription} (hσ : σ ∈ l) (hτ : τ ∈ l) (h : σ.id = τ.id) :
    σ = τ := by
  have h1 := find?_sub_of_mem l σ hσ hnd
  have h2 := find?_sub_of_mem l τ hτ hnd
  rw [h] at h1
  rw [h2] at h1
  exact (Option.some.inj h1).symm

/-- Every value in the `initial_amounts` dict built by `generate_forecasts`
for a budget lies in `[-monthly_amount, 0]`. -/
theorem initialAmountsLoop_mem_bound (s : State) (sub : Subscription)
    (hM : 0 ≤ sub.monthly_amount) (endP cur : CalDate) :
    ∀ e ∈ initialAmountsLoop s sub endP cur,
      -sub.monthly_amount ≤ e.2 ∧ e.2 ≤ 0 := by
  intro e he
  rw [initialAmountsLoop.eq_def] at he
  by_cases hle : CalDate.le cur endP = true
  · rw [dif_pos hle] at he
    simp only at he
    by_cases hC : 0 < getTotalCommittedForBudgetInMonth s sub.id cur
    · rw [if_pos hC] at he
      rcases List.mem_cons.mp he with he | he
      · rw [he]
        refine ⟨?_, min_le_left _ _⟩
        show -sub.monthly_amount ≤ min 0 (-sub.monthly_amount +
          getTotalCommittedForBudgetInMonth s sub.id cur)
        have h0 : (0 : Int) ≤ getTotalCommittedForBudgetInMonth s sub.id cur :=
          le_of_lt hC
        refine le_min (by omega) (by omega)
      · exact initialAmountsLoop_mem_bound s sub hM endP (cur.addMonths 1) e he
    · rw [if_neg hC] at he
      exact initialAmountsLoop_mem_bound s sub hM endP (cur.addMonths 1) e he
  · rw [dif_neg hle] at he
    exact absurd he (List.not_mem_nil e)
termination_by endP.monthIdx + 1 - cur.monthIdx
decreasing_by
  all_goals
    have h1 := CalDate.monthIdx_le_of_le hle
    have h2 := CalDate.monthIdx_addMonths cur 1
    unfold CalDate.monthIdx at h1 h2 ⊢
    omega

/-- Every row produced by `create_recurrent_transactions` carries the
subscription as its origin, and its amount is `±|a|` for `a` either the
subscription's monthly amount or a value of the `initial_amounts` dict. -/
theorem createRecurrentLoop_mem (sub : Subscription) (account : Account)
    (startP endP : CalDate) (ia : List ((Nat × Nat) × Int)) (cur : CalDate)
    (l : List Txn)
    (h : createRecurrentLoop sub account startP endP ia cur = some l) :
    ∀ r ∈ l, r.origin_id = some sub.id ∧
      ∃ a : Int, (a = sub.monthly_amount ∨ ∃ k, (k, a) ∈ ia) ∧
        r.amount = (if sub.is_income then |a| else -|a|) := by
  intro r hr
  rw [createRecurrentLoop.eq_def] at h
  by_cases hle : CalDate.le cur endP = true
  · rw [dif_pos hle] at h
    simp only at h
    revert h
    generalize (if sub.start_date.day ≤ daysInMonth cur.year cur.month then
        (⟨cur.year, cur.month, sub.start_date.day⟩ : CalDate)
      else ⟨cur.year, cur.month, daysInMonth cur.year cur.month⟩) = tdate
    intro h
    by_cases hin : (CalDate.le startP tdate && CalDate.le tdate endP) = true
    · rw [if_pos hin] at h
      cases heq : createSingleTransaction sub.name
          (((ia.find? (fun e => e.1 == (tdate.year, tdate.month))).map
            (·.2)).getD sub.monthly_amount)
          (some sub.category) none account tdate 0 sub.is_income false false with
      | none =>
        rw [heq] at h
        exact Option.noConfusion h
      | some tr =>
        rw [heq] at h
        obtain ⟨rest, hrest, hl⟩ := Option.map_eq_some'.mp h
        rw [← hl] at hr
        rcases List.mem_cons.mp hr with hr | hr
        · have hspec := createSingle_spec heq
          rw [hr]
          refine ⟨rfl, ?_⟩
          refine ⟨((ia.find? (fun e => e.1 == (tdate.year, tdate.month))).map
            (·.2)).getD sub.monthly_amount, ?_, ?_⟩
          · cases hfind : ia.find? (fun e => e.1 == (tdate.year, tdate.month)) with
            | none =>
              exact Or.inl rfl
            | some e =>
              refine Or.inr ⟨e.1, ?_⟩
              have := List.mem_of_find?_eq_some hfind
              simpa using this
          · exact hspec.1
        · exact createRecurrentLoop_mem sub account startP endP ia
            (cur.addMonths 1) rest hrest r hr
    · rw [if_neg hin] at h
      exact createRecurrentLoop_mem sub account startP endP ia
        (cur.addMonths 1) l h r hr
  · rw [dif_neg hle] at h
    rw [← Option.some.inj h] at hr
    exact absurd hr (List.not_mem_nil r)
termination_by endP.monthIdx + 1 - cur.monthIdx
decreasing_by
  all_goals
    have h1 := CalDate.monthIdx_le_of_le hle
    have h2 := CalDate.monthIdx_addMonths cur 1
    unfold CalDate.monthIdx at h1 h2 ⊢
    omega

/-- The body of `generate_forecasts`' per-subscription branch preserves the
range invariant and the subscription table.  `STP`/`E` abstract the computed
start and end periods. -/
theorem genSubTail_preserves (s s' : State) (sub : Subscription)
    (STP E : CalDate) (ia : List ((Nat × Nat) × Int))
    (hia : ia = [] ∨ ia = initialAmountsLoop s sub E STP)
    (hmem : sub ∈ s.subscriptions)
    (hnd : s.subscriptions.Pairwise (fun a b => a.id ≠ b.id))
    (hnn : ∀ σ ∈ s.subscriptions, 0 ≤ σ.monthly_amount)
    (hnbi : ∀ σ ∈ s.subscriptions, ¬(σ.is_budget = true ∧ σ.is_income = true))
    (hInv : BudgetRangeInvariant s)
    (h : (if CalDate.lt E STP then some s
        else
          match getAccountByName s sub.payment_account_id with
          | none => some s
          | some account =>
            match createRecurrentTransactions sub account STP E ia with
            | none => none
            | some [] => some s
            | some new_forecasts => some (addTransactions s new_forecasts)) =
        some s') :
    BudgetRangeInvariant s' ∧ s'.subscriptions = s.subscriptions := by
  by_cases hlt : CalDate.lt E STP = true
  · rw [if_pos hlt] at h
    exact Option.some.inj h ▸ ⟨hInv, rfl⟩
  · rw [if_neg hlt] at h
    cases hacc : getAccountByName s sub.payment_account_id with
    | none =>
      rw [hacc] at h
      exact Option.some.inj h ▸ ⟨hInv, rfl⟩
    | some account =>
      rw [hacc] at h
      have h3 : (match createRecurrentTransactions sub account STP E ia with
          | none => none
          | some [] => some s
          | some new_forecasts => some (addTransactions s new_forecasts)) =
          some s' := h
      cases hcrt : createRecurrentTransactions sub account STP E ia with
      | none =>
        rw [hcrt] at h3
        exact Option.noConfusion h3
      | some nf =>
        rw [hcrt] at h3
        cases nf with
        | nil =>
          have h2 : some s = some s' := h3
          exact Option.some.inj h2 ▸ ⟨hInv, rfl⟩
        | cons a as =>
          have h2 : some (addTransactions s (a :: as)) = some s' := h3
          have hs' := Option.some.inj h2
          rw [← hs']
          refine ⟨?_, rfl⟩
          refine inv_addTransactions s (a :: as) hInv ?_
          intro r hrm σ hσ hb hor
          obtain ⟨horig, a0, ha0, hram⟩ :=
            createRecurrentLoop_mem sub account STP E ia STP (a :: as) hcrt r hrm
          rw [horig] at hor
          have hsi : sub.id = σ.id := Option.some.inj hor
          have hσsub : σ = sub := sub_eq_of_id_eq hnd hσ hmem hsi.symm
          subst hσsub
          have hni : σ.is_income = false := by
            cases hii : σ.is_income with
            | false => rfl
            | true => exact absurd ⟨hb, hii⟩ (hnbi σ hmem)
          rw [hni] at hram
          rw [if_neg Bool.false_ne_true] at hram
          have habound : |a0| ≤ σ.monthly_amount := by
            rcases ha0 with rfl | ⟨k, hk⟩
            · rw [abs_of_nonneg (hnn σ hmem)]
            · rcases hia with rfl | rfl
              · exact absurd hk (List.not_mem_nil _)
              · have hbx := initialAmountsLoop_mem_bound s σ (hnn σ hmem)
                  E STP (k, a0) hk
                have h1 : -σ.monthly_amount ≤ a0 := hbx.1
                have h2 : a0 ≤ 0 := hbx.2
                rw [abs_of_nonpos h2]
                omega
          constructor
          · rw [hram]
            exact neg_le_neg habound
          · rw [hram]
            exact neg_nonpos.mpr (abs_nonneg a0)

/-- The per-subscription body of `generate_forecasts` preserves the range
invariant and the subscription table. -/
theorem genSub_preserves_invariant (allTx : List Txn) (today hD : CalDate)
    (s : State) (sub : Subscription) (s' : State)
    (hmem : sub ∈ s.subscriptions)
    (hnd : s.subscriptions.Pairwise (fun a b => a.id ≠ b.id))
    (hnn : ∀ σ ∈ s.subscriptions, 0 ≤ σ.monthly_amount)
    (hnbi : ∀ σ ∈ s.subscriptions, ¬(σ.is_budget = true ∧ σ.is_income = true))
    (hInv : BudgetRangeInvariant s)
    (h : generateForecastsSub allTx today hD s sub = some s') :
    BudgetRangeInvariant s' ∧ s'.subscriptions = s.subscriptions := by
  refine genSubTail_preserves s s' sub _ _ _ ?_ hmem hnd hnn hnbi hInv h
  by_cases hib : sub.is_budget = true
  · rw [if_pos hib]
    exact Or.inr rfl
  · rw [if_neg hib]
    exact Or.inl rfl

/-- The subscription loop of `generate_forecasts` preserves the range
invariant. -/
theorem genAux_preserves (allTx : List Txn) (today hD : CalDate) :
    ∀ (subs : List Subscription) (s s' : State),
      (∀ x ∈ subs, x ∈ s.subscriptions) →
      s.subscriptions.Pairwise (fun a b => a.id ≠ b.id) →
      (∀ σ ∈ s.subscriptions, 0 ≤ σ.monthly_amount) →
      (∀ σ ∈ s.subscriptions, ¬(σ.is_budget = true ∧ σ.is_income = true)) →
      BudgetRangeInvariant s →
      generateForecastsAux allTx today hD s subs = some s' →
      BudgetRangeInvariant s' := by
  intro subs
  induction subs with
  | nil =>
    intro s s' _ _ _ _ hInv hr
    exact Option.some.inj hr ▸ hInv
  | cons sub rest ih =>
    intro s s' hsm hnd hnn hnbi hInv hr
    unfold generateForecastsAux at hr
    cases hgs : generateForecastsSub allTx today hD s sub with
    | none =>
      rw [hgs] at hr
      exact Option.noConfusion hr
    | some s1 =>
      rw [hgs] at hr
      obtain ⟨hInv1, hsubs1⟩ := genSub_preserves_invariant allTx today hD s sub s1
        (hsm sub (List.mem_cons_self sub rest)) hnd hnn hnbi hInv hgs
      refine ih s1 s' ?_ ?_ ?_ ?_ hInv1 hr
      · intro x hx
        rw [hsubs1]
        exact hsm x (List.mem_cons_of_mem sub hx)
      · rw [hsubs1]
        exact hnd
      · rw [hsubs1]
        exact hnn
      · rw [hsubs1]
        exact hnbi

/-- `generate_forecasts` preserves the range invariant. -/
theorem genForecasts_preserves_invariant (s s' : State) (hm : Nat)
    (fd : CalDate)
    (hnd : s.subscriptions.Pairwise (fun a b => a.id ≠ b.id))
    (hnn : ∀ σ ∈ s.subscriptions, 0 ≤ σ.monthly_amount)
    (hnbi : ∀ σ ∈ s.subscriptions, ¬(σ.is_budget = true ∧ σ.is_income = true))
    (hInv : BudgetRangeInvariant s)
    (hr : generateForecasts s hm fd = some s') :
    BudgetRangeInvariant s' := by
  unfold generateForecasts at hr
  refine genAux_preserves _ _ _ _ s s' ?_ hnd hnn hnbi hInv hr
  intro x hx
  exact List.mem_of_mem_filter hx

/-- **C2.**  The claim quantifies over every engine operation, which the
counterexample `c2_invariant_not_preserved_by_edit` refutes: an amount edit
of an allocation paying outside its creation month escapes the heal step.
The amended claim: on structurally wellformed stores the range invariant
`alloc.amount ∈ [-b.monthly_amount, 0]` is preserved by recalculation,
Simple-request additions, deletions (with heal), monthly budget
reconciliation, forecast commitment and forecast generation. -/
theorem c2_range_invariant_preserved (s s' : State) (hWF : StoreWF s)
    (hInv : BudgetRangeInvariant s) (hstep : EngineStep s s') :
    BudgetRangeInvariant s' := by
  cases hstep with
  | recalc b md =>
    exact recalc_preserves_invariant s b md hWF.idsInc hWF.subIds
      hWF.subNonneg hInv
  | addSimple _ de am an cat bud g inc pen pla d hr =>
    exact addSimple_preserves_invariant s s' de am an cat bud g inc pen pla d
      hWF.idsInc hWF.idsLt hWF.subIds hWF.subNonneg hInv hr
  | deleteTx tid =>
    exact delete_preserves_invariant s tid hWF.idsInc hWF.subIds
      hWF.subNonneg hWF.validDates hWF.originWF hInv
  | reconcile _ md hmd hr =>
    exact reconcile_preserves_invariant s s' md hmd hWF.idsInc hWF.idsLt
      hWF.subIds hWF.subNonneg hWF.validDates hInv hr
  | commitForecasts md =>
    exact commit_preserves_invariant s md hInv
  | genForecasts _ hm fd hr =>
    exact genForecasts_preserves_invariant s s' hm fd hWF.subIds
      hWF.subNonneg hWF.subNoBudgetIncome hInv hr

/-- The empty store. -/
def c2WFState : State := ⟨[], [], [], [], 0, 0⟩

/-- Witness for C2: the empty store is wellformed and invariant, and a
recalculation step preserves the invariant. -/
theorem c2_range_invariant_preserved_witness :
    BudgetRangeInvariant (recalcAndUpdateBudget c2WFState "b" ⟨2025, 1, 1⟩) :=
  c2_range_invariant_preserved c2WFState _
    ⟨List.Pairwise.nil,
     fun t ht => absurd ht (List.not_mem_nil t),
     List.Pairwise.nil,
     fun σ hσ => absurd hσ (List.not_mem_nil σ),
     fun σ hσ => absurd hσ (List.not_mem_nil σ),
     fun t ht => absurd ht (List.not_mem_nil t),
     fun t ht => absurd ht (List.not_mem_nil t)⟩
    (fun σ hσ => absurd hσ (List.not_mem_nil σ))
    (EngineStep.recalc c2WFState "b" ⟨2025, 1, 1⟩)

/-! ## Theorems: C8 (scheduler idempotence) -/

/-- A plain (non-budget) subscription recurring on the 15th. -/
def c8Sub : Subscription :=
  ⟨"sub_net", "Netflix", "fun", 10, "Cash", ⟨2025, 1, 15⟩, none, false,
    "keep", false⟩

/-- A forecast of the subscription created and paying in March. -/
def c8A : Txn :=
  ⟨1, ⟨2025, 3, 15⟩, ⟨2025, 3, 15⟩, "Netflix", some "Cash", -10, some "fun",
    none, Status.forecast, some "sub_net"⟩

/-- A forecast of the subscription created in January but paying in June
(e.g. after a manual payment-date edit): the payed-maximal forecast. -/
def c8B : Txn :=
  ⟨2, ⟨2025, 1, 15⟩, ⟨2025, 6, 15⟩, "Netflix", some "Cash", -10, some "fun",
    none, Status.forecast, some "sub_net"⟩

/-- The C8 store. -/
def c8State : State := ⟨[c8A, c8B], [c8Sub], [cashAccount], [], 3, 0⟩

/-- The February forecast generated by the scheduler (before id assignment). -/
def c8Row : Txn :=
  ⟨0, ⟨2025, 2, 15⟩, ⟨2025, 2, 15⟩, "Netflix", some "Cash", -10, some "fun",
    none, Status.forecast, some "sub_net"⟩

/-- The store after the first `generate_forecasts(2, 2025-01-01)` call. -/
def c8S1 : State :=
  ⟨[c8A, c8B, { c8Row with id := 3 }], [c8Sub], [cashAccount], [], 4, 0⟩

/-- The store after the second, identical call: the February forecast is
inserted again. -/
def c8S2 : State :=
  ⟨[c8A, c8B, { c8Row with id := 3 }, { c8Row with id := 4 }], [c8Sub],
    [cashAccount], [], 5, 0⟩

/-- One unfolding of the recurrence loop past the horizon. -/
theorem c8_loop_apr :
    createRecurrentLoop c8Sub cashAccount ⟨2025, 2, 1⟩ ⟨2025, 3, 1⟩ []
      ⟨2025, 4, 1⟩ = some [] := by
  rw [createRecurrentLoop.eq_def]
  decide

/-- The March step generates nothing (the 15th is past the horizon). -/
theorem c8_loop_mar :
    createRecurrentLoop c8Sub cashAccount ⟨2025, 2, 1⟩ ⟨2025, 3, 1⟩ []
      ⟨2025, 3, 1⟩ = some [] := by
  rw [createRecurrentLoop.eq_def]
  have ha : (⟨2025, 3, 1⟩ : CalDate).addMonths 1 = ⟨2025, 4, 1⟩ := by decide
  rw [ha, c8_loop_apr]
  decide

/-- The February step generates exactly the February forecast. -/
theorem c8_loop_feb :
    createRecurrentLoop c8Sub cashAccount ⟨2025, 2, 1⟩ ⟨2025, 3, 1⟩ []
      ⟨2025, 2, 1⟩ = some [c8Row] := by
  rw [createRecurrentLoop.eq_def]
  have ha : (⟨2025, 2, 1⟩ : CalDate).addMonths 1 = ⟨2025, 3, 1⟩ := by decide
  rw [ha, c8_loop_mar]
  decide

/-- `create_recurrent_transactions` over Feb–Mar yields the February row. -/
theorem c8_crt :
    createRecurrentTransactions c8Sub cashAccount ⟨2025, 2, 1⟩ ⟨2025, 3, 1⟩ []
      = some [c8Row] := c8_loop_feb

/-- First per-subscription pass on the C8 store. -/
theorem c8_sub_eval1 :
    generateForecastsSub (getAllTransactions c8State) ⟨2025, 1, 1⟩
      ⟨2025, 3, 1⟩ c8State c8Sub = some c8S1 := by
  have h0 : generateForecastsSub (getAllTransactions c8State) ⟨2025, 1, 1⟩
      ⟨2025, 3, 1⟩ c8State c8Sub =
      (match createRecurrentTransactions c8Sub cashAccount ⟨2025, 2, 1⟩
          ⟨2025, 3, 1⟩ [] with
        | none => none
        | some [] => some c8State
        | some new_forecasts => some (addTransactions c8State new_forecasts)) :=
    rfl
  rw [h0, c8_crt]
  rfl

/-- Second, identical per-subscription pass: the scan still lands on the
payed-maximal forecast `c8B` (created in January), so February is generated
again. -/
theorem c8_sub_eval2 :
    generateForecastsSub (getAllTransactions c8S1) ⟨2025, 1, 1⟩
      ⟨2025, 3, 1⟩ c8S1 c8Sub = some c8S2 := by
  have h0 : generateForecastsSub (getAllTransactions c8S1) ⟨2025, 1, 1⟩
      ⟨2025, 3, 1⟩ c8S1 c8Sub =
      (match createRecurrentTransactions c8Sub cashAccount ⟨2025, 2, 1⟩
          ⟨2025, 3, 1⟩ [] with
        | none => none
        | some [] => some c8S1
        | some new_forecasts => some (addTransactions c8S1 new_forecasts)) :=
    rfl
  rw [h0, c8_crt]
  rfl

/-- First scheduler call on the C8 store. -/
theorem c8_gen1 : generateForecasts c8State 2 ⟨2025, 1, 1⟩ = some c8S1 := by
  have h0 : generateForecasts c8State 2 ⟨2025, 1, 1⟩ =
      generateForecastsAux (getAllTransactions c8State) ⟨2025, 1, 1⟩
        ⟨2025, 3, 1⟩ c8State [c8Sub] := rfl
  rw [h0]
  unfold generateForecastsAux
  rw [c8_sub_eval1]
  rfl

/-- Second scheduler call, on the result of the first. -/
theorem c8_gen2 : generateForecasts c8S1 2 ⟨2025, 1, 1⟩ = some c8S2 := by
  have h0 : generateForecasts c8S1 2 ⟨2025, 1, 1⟩ =
      generateForecastsAux (getAllTransactions c8S1) ⟨2025, 1, 1⟩
        ⟨2025, 3, 1⟩ c8S1 [c8Sub] := rfl
  rw [h0]
  unfold generateForecastsAux
  rw [c8_sub_eval2]
  rfl

/-- **C8 counterexample.**  `generate_forecasts` is not idempotent: on
`c8State` (whose payed-maximal forecast `c8B` pays in June but was created in
January) the first call with horizon 2 from 2025-01-01 inserts the February
forecast, and the second, identical call inserts it again, because the scan
keys the "last existing forecast" by maximal `date_payed` and that forecast's
`date_created` still lies before February. -/
theorem c8_not_idempotent_counterexample :
    generateForecasts c8State 2 ⟨2025, 1, 1⟩ = some c8S1 ∧
    generateForecasts c8S1 2 ⟨2025, 1, 1⟩ = some c8S2 ∧
    c8S1.transactions.length = 3 ∧
    c8S2.transactions.length = 4 :=
  ⟨c8_gen1, c8_gen2, rfl, rfl⟩

/-- Every row generated by the recurrence loop is created on or after the
start period. -/
theorem createRecurrentLoop_created (sub : Subscription) (account : Account)
    (startP endP : CalDate) (ia : List ((Nat × Nat) × Int)) (cur : CalDate)
    (l : List Txn)
    (h : createRecurrentLoop sub account startP endP ia cur = some l) :
    ∀ r ∈ l, CalDate.le startP r.date_created = true := by
  intro r hr
  rw [createRecurrentLoop.eq_def] at h
  by_cases hle : CalDate.le cur endP = true
  · rw [dif_pos hle] at h
    simp only at h
    revert h
    generalize (if sub.start_date.day ≤ daysInMonth cur.year cur.month then
        (⟨cur.year, cur.month, sub.start_date.day⟩ : CalDate)
      else ⟨cur.year, cur.month, daysInMonth cur.year cur.month⟩) = tdate
    intro h
    by_cases hin : (CalDate.le startP tdate && CalDate.le tdate endP) = true
    · rw [if_pos hin] at h
      cases heq : createSingleTransaction sub.name
          (((ia.find? (fun e => e.1 == (tdate.year, tdate.month))).map
            (·.2)).getD sub.monthly_amount)
          (some sub.category) none account tdate 0 sub.is_income false false with
      | none =>
        rw [heq] at h
        exact Option.noConfusion h
      | some tr =>
        rw [heq] at h
        obtain ⟨rest, hrest, hl⟩ := Option.map_eq_some'.mp h
        rw [← hl] at hr
        rcases List.mem_cons.mp hr with hr | hr
        · have hspec := createSingle_spec heq
          rw [hr]
          show CalDate.le startP tr.date_created = true
          rw [hspec.2.2.2]
          exact ((Bool.and_eq_true _ _).mp hin).1
        · exact createRecurrentLoop_created sub account startP endP ia
            (cur.addMonths 1) rest hrest r hr
    · rw [if_neg hin] at h
      exact createRecurrentLoop_created sub account startP endP ia
        (cur.addMonths 1) l h r hr
  · rw [dif_neg hle] at h
    rw [← Option.some.inj h] at hr
    exact absurd hr (List.not_mem_nil r)
termination_by endP.monthIdx + 1 - cur.monthIdx
decreasing_by
  all_goals
    have h1 := CalDate.monthIdx_le_of_le hle
    have h2 := CalDate.monthIdx_addMonths cur 1
    unfold CalDate.monthIdx at h1 h2 ⊢
    omega

/-- Rows inserted by `generate_forecasts`' per-subscription branch are
created on or after the computed start period. -/
theorem genSubTail_new_rows (s s' : State) (sub : Subscription)
    (STP E : CalDate) (ia : List ((Nat × Nat) × Int))
    (h : (if CalDate.lt E STP then some s
        else
          match getAccountByName s sub.payment_account_id with
          | none => some s
          | some account =>
            match createRecurrentTransactions sub account STP E ia with
            | none => none
            | some [] => some s
            | some new_forecasts => some (addTransactions s new_forecasts)) =
        some s') :
    ∀ r ∈ s'.transactions, r ∉ s.transactions →
      CalDate.le STP r.date_created = true := by
  intro r hr hnr
  by_cases hlt : CalDate.lt E STP = true
  · rw [if_pos hlt] at h
    rw [← Option.some.inj h] at hr
    exact absurd hr hnr
  · rw [if_neg hlt] at h
    cases hacc : getAccountByName s sub.payment_account_id with
    | none =>
      rw [hacc] at h
      rw [← Option.some.inj h] at hr
      exact absurd hr hnr
    | some account =>
      rw [hacc] at h
      have h3 : (match createRecurrentTransactions sub account STP E ia with
          | none => none
          | some [] => some s
          | some new_forecasts => some (addTransactions s new_forecasts)) =
          some s' := h
      cases hcrt : createRecurrentTransactions sub account STP E ia with
      | none =>
        rw [hcrt] at h3
        exact Option.noConfusion h3
      | some nf =>
        rw [hcrt] at h3
        cases nf with
        | nil =>
          have h2 : some s = some s' := h3
          rw [← Option.some.inj h2] at hr
          exact absurd hr hnr
        | cons a as =>
          have h2 : some (addTransactions s (a :: as)) = some s' := h3
          rw [← Option.some.inj h2] at hr
          have hr2 : r ∈ s.transactions ++ assignIds s.nextId (a :: as) := hr
          rcases List.mem_append.mp hr2 with hr3 | hr3
          · exact absurd hr3 hnr
          · obtain ⟨u, hu, he, _⟩ := mem_assignIds _ _ _ hr3
            have hc : r.date_created = u.date_created := by rw [he]
            rw [hc]
            exact createRecurrentLoop_created sub account STP E ia STP
              (a :: as) hcrt u hu

/-- **C8.**  The claim's idempotence fails
(`c8_not_idempotent_counterexample`); what the scheduler does guarantee is
the amended mechanism statement: whenever the scan finds a previous forecast
`t` of the subscription (the row with maximal `date_payed`, first in the
reversed payed-ordered listing), every row the per-subscription pass inserts
is created in a month strictly after `t.date_created`'s month.  Idempotence
follows only when the payed-maximal forecast is also the created-maximal
one, which the counterexample's store violates. -/
theorem c8_generation_only_beyond_scanned_forecast
    (allTx : List Txn) (today hD : CalDate) (s : State) (sub : Subscription)
    (s' : State) (t : Txn)
    (hlast : allTx.reverse.find? (fun u => u.origin_id == some sub.id &&
        u.status == Status.forecast) = some t)
    (h : generateForecastsSub allTx today hD s sub = some s') :
    ∀ r ∈ s'.transactions, r ∉ s.transactions →
      t.date_created.monthIdx < r.date_created.monthIdx := by
  intro r hr hnr
  unfold generateForecastsSub at h
  rw [hlast] at h
  have hle := genSubTail_new_rows s s' sub
    (monthStart (t.date_created.addMonths 1)) _ _ h r hr hnr
  have hm1 := CalDate.monthIdx_le_of_le hle
  have hm2 : (monthStart (t.date_created.addMonths 1)).monthIdx =
      t.date_created.monthIdx + 1 := by
    unfold monthStart CalDate.monthIdx CalDate.addMonths
    simp only
    omega
  omega

/-- Witness for C8: on the counterexample store the freshly inserted February
row (id 3) is indeed created strictly after the scanned forecast `c8B`'s
creation month (January). -/
theorem c8_generation_only_beyond_scanned_forecast_witness :
    c8B.date_created.monthIdx <
      ({ c8Row with id := 3 } : Txn).date_created.monthIdx :=
  c8_generation_only_beyond_scanned_forecast (getAllTransactions c8State)
    ⟨2025, 1, 1⟩ ⟨2025, 3, 1⟩ c8State c8Sub c8S1 c8B (by decide) c8_sub_eval1
    { c8Row with id := 3 } (by decide) (by decide)
